import Mathlib

/-!
# World Bank population adapter (`instant/econ/population/worldbank.go`)

A shallow embedding of `WorldBank.Fetch` and `WorldBank.buildURL` together with the parts
of the Go standard library they call: `net/url` (`Parse`, `Query`, `Values.Add`,
`Values.Encode`, `URL.String`), `fmt.Sprintf`, `strconv.ParseInt`, `strings.TrimSpace`,
the struct-tag driven decoding of `encoding/xml`, `ioutil.ReadAll` and `time.Date`.

Conventions.
* A Go `string` / `[]byte` is a sequence of bytes: `GoString := List UInt8`.
* A Go `int` is 64 bits wide; it is an `Int` here, and the one place where the width
  decides anything, the range check of `strconv.ParseInt`, states it.
* A library call returning `(T, error)` is an `Except Error T`.  `Fetch` itself returns the
  pair `(*Response, error)` as a pair of options, `none` standing for `nil`, since the
  shape of that pair is the subject of several statements.
* The transport `*http.Client` acts on an explicit state `σ` of the outside world, so that
  the calls made and their order are observable.
* Loops over a string index are structural recursions over the list of bytes; an early
  `return` is the branch that holds no recursive call.
* Not modelled: `defer resp.Body.Close()` (no result), a nil `HTTPClient` (a panic).

The standard library is followed as in recent Go releases (control characters rejected by
`url.Parse`, `;` rejected by `ParseQuery`, `OmitHost`, `RawFragment`).  What is proved
about `buildURL` below does not hinge on these additions.  `time.Date` is followed in its
64-bit arithmetic: a year outside the span of a `time.Time` is not stored as given.
-/

set_option maxRecDepth 100000

namespace population

/-- Go strings are byte sequences. -/
abbrev GoString := List UInt8

/-- The bytes of a string literal (its UTF-8 encoding, as in a Go source file). -/
def str (s : String) : GoString := s.toList.flatMap String.utf8EncodeChar

/-- Byte of an ASCII character literal such as `'%'`. -/
abbrev ch (c : Char) : UInt8 := c.toUInt8

/-- Go `error` values that can flow through `Fetch`. -/
inductive Error where
  /-- `errors.New(msg)` / `fmt.Errorf` results of the standard library. -/
  | errorString (msg : String)
  /-- `url.EscapeError(s)`. -/
  | EscapeError (s : GoString)
  /-- `url.InvalidHostError(s)`. -/
  | InvalidHostError (s : GoString)
  /-- `&url.Error{Op, URL, Err}`. -/
  | urlError (op : String) (url : GoString) (err : Error)
  /-- `&strconv.NumError{Func, Num, Err}` with `Err` one of `ErrSyntax`, `ErrRange`. -/
  | NumError (func : String) (num : GoString) (range : Bool)
  /-- An error produced outside this package (transport, body reader, XML syntax),
  identified by an arbitrary tag. -/
  | external (tag : Nat)
  /-- Marks a branch of the standard library that is not modelled (IP-literal hosts);
  `buildURL` never reaches it, see `buildURL_modelled`. -/
  | notModelled
  deriving DecidableEq, Repr

/-- Whether an error comes from a modelled branch of the standard library. -/
def Error.modelled : Error → Bool
  | .notModelled => false
  | .urlError _ _ err => err.modelled
  | _ => true

instance instDecidableEqExcept {ε α : Type} [DecidableEq ε] [DecidableEq α] :
    DecidableEq (Except ε α)
  | .ok a, .ok b => if h : a = b then isTrue (by rw [h]) else isFalse (by simpa using h)
  | .error a, .error b => if h : a = b then isTrue (by rw [h]) else isFalse (by simpa using h)
  | .ok _, .error _ => isFalse (by simp)
  | .error _, .ok _ => isFalse (by simp)

/-! ## `net/url` -/

namespace url

/-- The `encoding` modes of `net/url`. -/
inductive encoding where
  | encodePath
  | encodePathSegment
  | encodeHost
  | encodeZone
  | encodeUserPassword
  | encodeQueryComponent
  | encodeFragment
  deriving DecidableEq, Repr

open encoding

def ishex (c : UInt8) : Bool :=
  (ch '0' ≤ c && c ≤ ch '9') || (ch 'a' ≤ c && c ≤ ch 'f') || (ch 'A' ≤ c && c ≤ ch 'F')

def unhex (c : UInt8) : UInt8 :=
  if ch '0' ≤ c && c ≤ ch '9' then c - ch '0'
  else if ch 'a' ≤ c && c ≤ ch 'f' then c - ch 'a' + 10
  else if ch 'A' ≤ c && c ≤ ch 'F' then c - ch 'A' + 10
  else 0

/-- `shouldEscape(c, mode)`: whether byte `c` must be percent-encoded in `mode`. -/
def shouldEscape (c : UInt8) (mode : encoding) : Bool :=
  if (ch 'a' ≤ c && c ≤ ch 'z') || (ch 'A' ≤ c && c ≤ ch 'Z') || (ch '0' ≤ c && c ≤ ch '9') then
    false
  else if (mode = encodeHost || mode = encodeZone) &&
      c ∈ [ch '!', ch '$', ch '&', 0x27, ch '(', ch ')', ch '*', ch '+', ch ',', ch ';',
           ch '=', ch ':', ch '[', ch ']', ch '<', ch '>', 0x22] then
    false
  else if c ∈ [ch '-', ch '_', ch '.', ch '~'] then
    false
  else if c ∈ [ch '$', ch '&', ch '+', ch ',', ch '/', ch ':', ch ';', ch '=', ch '?', ch '@'] &&
      mode ∈ [encodePath, encodePathSegment, encodeUserPassword, encodeQueryComponent,
              encodeFragment] then
    match mode with
    | encodePath => c = ch '?'
    | encodePathSegment => c = ch '/' || c = ch ';' || c = ch ',' || c = ch '?'
    | encodeUserPassword => c = ch '@' || c = ch '/' || c = ch '?' || c = ch ':'
    | encodeQueryComponent => true
    | _ => false
  else if mode = encodeFragment && c ∈ [ch '!', ch '(', ch ')', ch '*'] then
    false
  else
    true

/-- First pass of `unescape`: count the `%`, check that they are well formed.  Returns the
error of the first offending position, if any. -/
def unescapeCheck (mode : encoding) : GoString → Option Error
  | [] => none
  | c :: s =>
    if c = ch '%' then
      match s with
      | a :: b :: t =>
        if !ishex a || !ishex b then
          some (Error.EscapeError ((c :: s).take 3))
        else if mode = encodeHost && unhex a < 8 && [c, a, b] ≠ str "%25" then
          some (Error.EscapeError [c, a, b])
        else if mode = encodeZone && [c, a, b] ≠ str "%25" &&
            (unhex a <<< 4 ||| unhex b) ≠ ch ' ' &&
            shouldEscape (unhex a <<< 4 ||| unhex b) encodeHost then
          some (Error.EscapeError [c, a, b])
        else
          unescapeCheck mode t
      | _ => some (Error.EscapeError ((c :: s).take 3))
    else if c = ch '+' then
      unescapeCheck mode s
    else if (mode = encodeHost || mode = encodeZone) && c < 0x80 && shouldEscape c encodeHost then
      some (Error.InvalidHostError [c])
    else
      unescapeCheck mode s

/-- Second pass of `unescape`: rewrite `%XX` to the byte and, in query components, `+` to a
space.  (When there is nothing to rewrite this is the identity, which is the early return
`if n == 0 && !hasPlus` of the source.) -/
def unescapeRewrite (mode : encoding) : GoString → GoString
  | [] => []
  | c :: s =>
    if c = ch '%' then
      match s with
      | a :: b :: t => (unhex a <<< 4 ||| unhex b) :: unescapeRewrite mode t
      | _ => []
    else if c = ch '+' then
      (if mode = encodeQueryComponent then ch ' ' else ch '+') :: unescapeRewrite mode s
    else
      c :: unescapeRewrite mode s

/-- `unescape(s, mode)`. -/
def unescape (s : GoString) (mode : encoding) : Except Error GoString :=
  match unescapeCheck mode s with
  | some e => .error e
  | none => .ok (unescapeRewrite mode s)

/-- The table `upperhex = "0123456789ABCDEF"`, indexed by a nibble. -/
def upperhex (n : UInt8) : UInt8 :=
  if n < 10 then ch '0' + n else ch 'A' + (n - 10)

/-- `escape(s, mode)`. -/
def escape (s : GoString) (mode : encoding) : GoString :=
  s.flatMap fun c =>
    if c = ch ' ' && mode = encodeQueryComponent then [ch '+']
    else if shouldEscape c mode then [ch '%', upperhex (c >>> 4), upperhex (c &&& 15)]
    else [c]

/-- The bytes `escape` writes for one byte of a query component
(`escape (c :: s) = escapeByte c ++ escape s`, see `escape_cons`). -/
def escapeByte (c : UInt8) : GoString :=
  if c = ch ' ' && encodeQueryComponent = encodeQueryComponent then [ch '+']
  else if shouldEscape c encodeQueryComponent then [ch '%', upperhex (c >>> 4), upperhex (c &&& 15)]
  else [c]

def QueryUnescape (s : GoString) : Except Error GoString := unescape s encodeQueryComponent

def QueryEscape (s : GoString) : GoString := escape s encodeQueryComponent

/-- `url.Userinfo`. -/
structure Userinfo where
  username : GoString
  password : GoString
  passwordSet : Bool
  deriving DecidableEq, Repr

/-- `url.URL`. -/
structure URL where
  Scheme : GoString := []
  Opaque : GoString := []
  User : Option Userinfo := none
  Host : GoString := []
  Path : GoString := []
  RawPath : GoString := []
  OmitHost : Bool := false
  ForceQuery : Bool := false
  RawQuery : GoString := []
  Fragment : GoString := []
  RawFragment : GoString := []
  deriving DecidableEq, Repr

/-- `strings.Cut(s, sep)` for a one-byte separator: the text before and after the first
`sep`, or `(s, "")` when there is none (the third result is not used by the callers). -/
def cut (sep : UInt8) : GoString → GoString × GoString
  | [] => ([], [])
  | c :: s => if c = sep then ([], s) else ((cut sep s).1.cons c, (cut sep s).2)

/-- The authority split of `parse`: `authority[:i], authority[i:]` at the first `/`
(the separator stays in the second part), or `(s, "")`. -/
def cutKeep (sep : UInt8) : GoString → GoString × GoString
  | [] => ([], [])
  | c :: s => if c = sep then ([], c :: s) else ((cutKeep sep s).1.cons c, (cutKeep sep s).2)

/-- `stringContainsCTLByte`. -/
def stringContainsCTLByte (s : GoString) : Bool := s.any fun b => b < ch ' ' || b = 0x7f

/-- The loop of `getScheme`, `i0` telling whether the index is still `0`. -/
def getSchemeLoop (rawURL : GoString) (i0 : Bool) (acc : GoString) :
    GoString → Except Error (GoString × GoString)
  | [] => .ok ([], rawURL)
  | c :: s =>
    if (ch 'a' ≤ c && c ≤ ch 'z') || (ch 'A' ≤ c && c ≤ ch 'Z') then
      getSchemeLoop rawURL false (acc ++ [c]) s
    else if (ch '0' ≤ c && c ≤ ch '9') || c = ch '+' || c = ch '-' || c = ch '.' then
      if i0 then .ok ([], rawURL) else getSchemeLoop rawURL false (acc ++ [c]) s
    else if c = ch ':' then
      if i0 then .error (.errorString "missing protocol scheme") else .ok (acc, s)
    else
      .ok ([], rawURL)

/-- `getScheme(rawURL)`: `(scheme, rest)`. -/
def getScheme (rawURL : GoString) : Except Error (GoString × GoString) :=
  getSchemeLoop rawURL true [] rawURL

/-- ASCII `strings.ToLower` (the scheme consists of ASCII letters, digits, `+-.`). -/
def toLower (s : GoString) : GoString :=
  s.map fun c => if ch 'A' ≤ c && c ≤ ch 'Z' then c + 32 else c

/-- `validOptionalPort(port)`: empty, or `:` followed by decimal digits. -/
def validOptionalPort : GoString → Bool
  | [] => true
  | c :: s => c = ch ':' && s.all fun b => ch '0' ≤ b && b ≤ ch '9'

/-- The part of `s` from its last `sep` on (`s[strings.LastIndex(s, sep):]`), if any. -/
def fromLast (sep : UInt8) : GoString → Option GoString
  | [] => none
  | c :: s =>
    match fromLast sep s with
    | some t => some t
    | none => if c = sep then some (c :: s) else none

/-- `parseHost(host)`.  The IP-literal branch (`host` starting with `[`) is not modelled;
the message of the port error, which quotes the port, is shortened. -/
def parseHost (host : GoString) : Except Error GoString :=
  if host.head? = some (ch '[') then
    .error .notModelled
  else
    match fromLast (ch ':') host with
    | some colonPort =>
      if !validOptionalPort colonPort then
        .error (.errorString "invalid port after host")
      else unescape host encodeHost
    | none => unescape host encodeHost

/-- `validUserinfo(s)`. -/
def validUserinfo (s : GoString) : Bool :=
  s.all fun r =>
    (ch 'A' ≤ r && r ≤ ch 'Z') || (ch 'a' ≤ r && r ≤ ch 'z') || (ch '0' ≤ r && r ≤ ch '9') ||
    r ∈ [ch '-', ch '.', ch '_', ch ':', ch '~', ch '!', ch '$', ch '&', 0x27, ch '(', ch ')',
         ch '*', ch '+', ch ',', ch ';', ch '=', ch '%', ch '@']

/-- Splits at the last `sep`: `(s[:i], s[i+1:])` for `i = strings.LastIndex(s, sep)`. -/
def cutLast (sep : UInt8) : GoString → Option (GoString × GoString)
  | [] => none
  | c :: s =>
    match cutLast sep s with
    | some (a, b) => some (c :: a, b)
    | none => if c = sep then some ([], s) else none

/-- `parseAuthority(authority)`: `(user, host)`. -/
def parseAuthority (authority : GoString) : Except Error (Option Userinfo × GoString) :=
  match cutLast (ch '@') authority with
  | none => do
    let host ← parseHost authority
    pure (none, host)
  | some (userinfo, hostpart) => do
    let host ← parseHost hostpart
    if !validUserinfo userinfo then
      throw (.errorString "net/url: invalid userinfo")
    else if !userinfo.contains (ch ':') then
      let username ← unescape userinfo encodeUserPassword
      pure (some ⟨username, [], false⟩, host)
    else
      let username ← unescape (cut (ch ':') userinfo).1 encodeUserPassword
      let password ← unescape (cut (ch ':') userinfo).2 encodeUserPassword
      pure (some ⟨username, password, true⟩, host)

/-- `(*URL).setPath(p)`. -/
def URL.setPath (u : URL) (p : GoString) : Except Error URL :=
  match unescape p encodePath with
  | .error err => .error err
  | .ok path =>
    .ok { u with Path := path, RawPath := if p = escape path encodePath then [] else p }

/-- `(*URL).setFragment(f)`. -/
def URL.setFragment (u : URL) (f : GoString) : Except Error URL :=
  match unescape f encodeFragment with
  | .error err => .error err
  | .ok frag =>
    .ok { u with Fragment := frag,
                 RawFragment := if f = escape frag encodeFragment then [] else f }

/-- The query split of `parse`: a trailing `?` that is the only one forces an empty query
(`ForceQuery`), otherwise the text is cut at the first `?`.  The result is
`(rest, ForceQuery, RawQuery)`. -/
def splitQuery (rest : GoString) : GoString × Bool × GoString :=
  if rest.getLast? = some (ch '?') && rest.count (ch '?') = 1 then (rest.dropLast, true, [])
  else ((cut (ch '?') rest).1, false, (cut (ch '?') rest).2)

/-- The part of `parse` after the scheme and the query have been split off: opaque and
relative forms, the authority, the path. -/
def parseHier (url : URL) (rest : GoString) (viaRequest : Bool) : Except Error URL :=
  if rest.head? ≠ some (ch '/') && url.Scheme ≠ [] then
    -- rootless paths are opaque
    .ok { url with Opaque := rest }
  else if rest.head? ≠ some (ch '/') && viaRequest then
    .error (.errorString "invalid URI for request")
  else if rest.head? ≠ some (ch '/') && (cut (ch '/') rest).1.contains (ch ':') then
    .error (.errorString "first path segment in URL cannot contain colon")
  else if (url.Scheme ≠ [] || (!viaRequest && !(str "///").isPrefixOf rest)) &&
      (str "//").isPrefixOf rest then
    match parseAuthority (cutKeep (ch '/') (rest.drop 2)).1 with
    | .error err => .error err
    | .ok (user, host) =>
      URL.setPath { url with User := user, Host := host } (cutKeep (ch '/') (rest.drop 2)).2
  else if url.Scheme ≠ [] && rest.head? = some (ch '/') then
    URL.setPath { url with OmitHost := true } rest
  else
    URL.setPath url rest

/-- `parse(rawURL, viaRequest)`. -/
def parse (rawURL : GoString) (viaRequest : Bool) : Except Error URL :=
  if stringContainsCTLByte rawURL then
    .error (.errorString "net/url: invalid control character in URL")
  else if rawURL = [] && viaRequest then
    .error (.errorString "empty url")
  else if rawURL = str "*" then
    .ok { Path := str "*" }
  else
    match getScheme rawURL with
    | .error err => .error err
    | .ok (scheme, rest) =>
      parseHier
        { Scheme := toLower scheme, ForceQuery := (splitQuery rest).2.1,
          RawQuery := (splitQuery rest).2.2 }
        (splitQuery rest).1 viaRequest

/-- `url.Parse(rawURL)`. -/
def Parse (rawURL : GoString) : Except Error URL :=
  match parse (cut (ch '#') rawURL).1 false with
  | .error err => .error (.urlError "parse" (cut (ch '#') rawURL).1 err)
  | .ok url =>
    if (cut (ch '#') rawURL).2 = [] then .ok url
    else
      match url.setFragment (cut (ch '#') rawURL).2 with
      | .error err => .error (.urlError "parse" rawURL err)
      | .ok url => .ok url

/-- `url.Values`, a `map[string][]string`: a list of `(key, values)` with distinct keys.
The order of the list is not observable: the only traversal, `Encode`, sorts the keys. -/
abbrev Values := List (GoString × List GoString)

/-- The map read `v[key]` (`nil` when the key is absent). -/
def Values.lookup : Values → GoString → List GoString
  | [], _ => []
  | (k, vs) :: m, key => if k = key then vs else Values.lookup m key

/-- The map write `v[key] = vs`. -/
def Values.store : Values → GoString → List GoString → Values
  | [], key, vs => [(key, vs)]
  | (k, ws) :: m, key, vs => if k = key then (k, vs) :: m else (k, ws) :: Values.store m key vs

/-- `(Values).Add(key, value)`: `v[key] = append(v[key], value)`. -/
def Values.Add (v : Values) (key value : GoString) : Values :=
  v.store key (v.lookup key ++ [value])

/-- One iteration of the loop of `parseQuery` on the text `key` cut off before the next `&`.
A component holding a `;`, an empty component and a component whose key or value does not
unescape are skipped (they only set the error, which `Query` discards). -/
def parseQueryStep (m : Values) (key : GoString) : Values :=
  if key.contains (ch ';') then m
  else if key = [] then m
  else
    match QueryUnescape (cut (ch '=') key).1, QueryUnescape (cut (ch '=') key).2 with
    | .ok k, .ok value => m.Add k value
    | _, _ => m

/-- The loop of `parseQuery(m, query)`: `cur` is the component read so far. -/
def parseQueryLoop (m : Values) (cur : GoString) : GoString → Values
  | [] => parseQueryStep m cur
  | c :: s =>
    if c = ch '&' then parseQueryLoop (parseQueryStep m cur) [] s
    else parseQueryLoop m (cur ++ [c]) s

/-- `(*URL).Query()`: `v, _ := ParseQuery(u.RawQuery)`, the error dropped. -/
def URL.Query (u : URL) : Values := parseQueryLoop [] [] u.RawQuery

/-- Byte-wise lexicographic `a < b` on Go strings. -/
def strLess : GoString → GoString → Bool
  | [], [] => false
  | [], _ :: _ => true
  | _ :: _, [] => false
  | a :: s, b :: t => a < b || (a = b && strLess s t)

/-- Insertion of a key into a sorted list of keys. -/
def insertKey (k : GoString) : List GoString → List GoString
  | [] => [k]
  | x :: xs => if strLess x k then x :: insertKey k xs else k :: x :: xs

/-- `slices.Sort(keys)`. -/
def sortKeys : List GoString → List GoString
  | [] => []
  | k :: ks => insertKey k (sortKeys ks)

/-- `strings.Join(parts, "&")`, which is what the `buf.Len() > 0` test of `Encode`
produces (every part is non-empty: it holds at least the `=`). -/
def joinAmp : List GoString → GoString
  | [] => []
  | [p] => p
  | p :: q :: ps => p ++ ch '&' :: joinAmp (q :: ps)

/-- `(Values).Encode()`: `key=value` pairs, escaped, sorted by key, joined by `&`. -/
def Values.Encode (v : Values) : GoString :=
  joinAmp ((sortKeys (v.map Prod.fst)).flatMap fun k =>
    (v.lookup k).map fun value => QueryEscape k ++ ch '=' :: QueryEscape value)

/-- The shape of the pairs `Encode` writes: an escaped key, `=`, an escaped value. -/
def escapedPair (c : GoString) : Prop := ∃ k x, c = QueryEscape k ++ ch '=' :: QueryEscape x

/-- `validEncoded(s, mode)`. -/
def validEncoded (s : GoString) (mode : encoding) : Bool :=
  s.all fun c =>
    c ∈ [ch '!', ch '$', ch '&', 0x27, ch '(', ch ')', ch '*', ch '+', ch ',', ch ';', ch '=',
         ch ':', ch '@', ch '[', ch ']', ch '%'] || !shouldEscape c mode

/-- `(*URL).EscapedPath()`. -/
def URL.EscapedPath (u : URL) : GoString :=
  if u.RawPath ≠ [] && validEncoded u.RawPath encodePath &&
      unescape u.RawPath encodePath = .ok u.Path then u.RawPath
  else if u.Path = str "*" then str "*"
  else escape u.Path encodePath

/-- `(*URL).EscapedFragment()`. -/
def URL.EscapedFragment (u : URL) : GoString :=
  if u.RawFragment ≠ [] && validEncoded u.RawFragment encodeFragment &&
      unescape u.RawFragment encodeFragment = .ok u.Fragment then u.RawFragment
  else escape u.Fragment encodeFragment

/-- `(*Userinfo).String()`. -/
def Userinfo.String (u : Userinfo) : GoString :=
  escape u.username encodeUserPassword ++
    (if u.passwordSet then ch ':' :: escape u.password encodeUserPassword else [])

/-- `(*URL).String()`. -/
def URL.String (u : URL) : GoString :=
  let scheme : GoString := if u.Scheme ≠ [] then u.Scheme ++ [ch ':'] else []
  let body : GoString :=
    if u.Opaque ≠ [] then scheme ++ u.Opaque
    else
      let auth : GoString :=
        if u.Scheme ≠ [] || u.Host ≠ [] || u.User.isSome then
          if u.OmitHost && u.Host = [] && u.User.isNone then []
          else
            (if u.Host ≠ [] || u.Path ≠ [] || u.User.isSome then str "//" else []) ++
            (match u.User with
             | some ui => ui.String ++ [ch '@']
             | none => []) ++
            (if u.Host ≠ [] then escape u.Host encodeHost else [])
        else []
      let buf := scheme ++ auth
      let path := u.EscapedPath
      let buf :=
        if path ≠ [] && path.head? ≠ some (ch '/') && u.Host ≠ [] then buf ++ [ch '/'] else buf
      let buf :=
        if buf = [] && (cut (ch '/') path).1.contains (ch ':') then buf ++ str "./" else buf
      buf ++ path
  let body := if u.ForceQuery || u.RawQuery ≠ [] then body ++ ch '?' :: u.RawQuery else body
  if u.Fragment ≠ [] then body ++ ch '#' :: u.EscapedFragment else body

end url

/-! ## `time` and `fmt` -/

/-- `time.Location`; only `time.UTC` is named by the source. -/
inductive Location where
  | UTC
  | Local
  | fixed (name : String) (offset : Int)
  deriving DecidableEq, Repr

/-- A `time.Time`, represented by what its accessors return: `Year`, `Month`, `Day`,
`Clock` (hour, minute, second), `Nanosecond` and `Location`.  For a given location these
readings determine the time. -/
structure Time where
  year : Int
  month : Nat
  day : Nat
  hour : Nat
  min : Nat
  sec : Nat
  nsec : Nat
  loc : Location
  deriving DecidableEq, Repr

/-- The conversion `uint64(i)`: the value modulo `2^64`. -/
def uint64 (i : Int) : Nat := (i % 18446744073709551616).toNat

/-- The conversion `int64(i)`, which is also what 64-bit signed arithmetic leaves of a
result: the value modulo `2^64`, taken in `[-2^63, 2^63)`. -/
def int64 (i : Int) : Int :=
  (i + 9223372036854775808) % 18446744073709551616 - 9223372036854775808

/-! `time.Date` and the accessors follow the second count of package `time` that starts at
`absoluteZeroYear` (`daysSinceEpoch`, `absDate`), with the wrapping of its 64-bit
arithmetic written out. -/

namespace time

/-- `absoluteZeroYear`: the year the absolute second count of package `time` starts at. -/
def absoluteZeroYear : Int := -292277022399

/-- `absoluteToInternal = (absoluteZeroYear - internalYear) * 365.2425 * secondsPerDay`. -/
def absoluteToInternal : Int := -9223371966579724800

/-- `unixToInternal = (1969*365 + 1969/4 - 1969/100 + 1969/400) * secondsPerDay`. -/
def unixToInternal : Int := 62135596800

/-- The last year whose December 31 lies within the `2^64` seconds that follow the start
of `absoluteZeroYear`. -/
def lastYear : Int := 292277026853

/-- `norm(hi, lo, base)`: `(nhi, nlo)` with `hi*base + lo = nhi*base + nlo` and
`0 <= nlo < base`, in 64-bit arithmetic. -/
def norm (hi lo base : Int) : Int × Int :=
  let p : Int × Int :=
    if lo < 0 then
      (int64 (hi - (int64 (-lo - 1) / base + 1)),
       int64 (lo + (int64 (-lo - 1) / base + 1) * base))
    else (hi, lo)
  if p.2 ≥ base then (int64 (p.1 + p.2 / base), int64 (p.2 - p.2 / base * base)) else p

/-- `isLeap(year)`. -/
def isLeap (year : Int) : Bool := year % 4 = 0 && (year % 100 ≠ 0 || year % 400 = 0)

/-- The table `daysBefore`: the days of a non-leap year before month `m + 1`. -/
def daysBefore (m : Nat) : Nat :=
  [0, 31, 59, 90, 120, 151, 181, 212, 243, 273, 304, 334, 365].getD m 0

/-- `daysSinceEpoch(year)`: the days from the absolute epoch to the start of the year, in
`uint64` arithmetic (400-year, 100-year and 4-year cycles, then single years). -/
def daysSinceEpoch (year : Int) : Nat :=
  let y := uint64 (year - absoluteZeroYear)
  let n400 := y / 400
  let y := y - 400 * n400
  let n100 := y / 100
  let y := y - 100 * n100
  let n4 := y / 4
  let y := y - 4 * n4
  (146097 * n400 + 36524 * n100 + 1461 * n4 + 365 * y) % 18446744073709551616

/-- The absolute second count `abs` that `time.Date` computes from its arguments, after
normalising them. -/
def dateAbs (year month day hour min sec nsec : Int) : Nat × Int :=
  let ym := norm year (month - 1) 12
  let year := ym.1
  let month := ym.2 + 1
  let sn := norm sec nsec 1000000000
  let ms := norm min sn.1 60
  let hm := norm hour ms.1 60
  let dh := norm day hm.1 24
  let d : Int := daysSinceEpoch year + daysBefore (month - 1).toNat +
    (if isLeap year && month ≥ 3 then 1 else 0) + (dh.1 - 1)
  (uint64 ((uint64 d : Int) * 86400 + (dh.2 * 3600 + hm.2 * 60 + ms.2)), sn.2)

/-- The field `ext` of the `Time` that `time.Date` returns for the location `time.UTC`
(offset zero): `unix := int64(abs) + (absoluteToInternal + internalToUnix)`, then
`unixTime(unix, nsec)`, which stores `unix + unixToInternal`. -/
def dateExt (abs : Nat) : Int :=
  int64 (int64 (int64 abs + (absoluteToInternal + -unixToInternal)) + unixToInternal)

/-- `(Time).abs()` for a time in `time.UTC`:
`uint64(t.unixSec() + (unixToInternal + internalToAbsolute))`, where `unixSec` is
`ext + internalToUnix`. -/
def absOf (ext : Int) : Nat :=
  uint64 (int64 (ext + -unixToInternal) + (unixToInternal + -absoluteToInternal))

/-- `absDate(abs, false)`: the year of an absolute second count and the day within the
year, counted from 0. -/
def absYearDay (abs : Nat) : Int × Nat :=
  let d := abs / 86400
  -- 400-year cycles
  let n := d / 146097
  let y := 400 * n
  let d := d - 146097 * n
  -- 100-year cycles; `n -= n >> 2` cuts the last day of the fourth one off to 3
  let n := d / 36524 - d / 36524 / 4
  let y := y + 100 * n
  let d := d - 36524 * n
  -- 4-year cycles
  let n := d / 1461
  let y := y + 4 * n
  let d := d - 1461 * n
  -- years within a 4-year cycle; `n -= n >> 2` again
  let n := d / 365 - d / 365 / 4
  (int64 (int64 (y + n : Nat) + absoluteZeroYear), d - 365 * n)

/-- The rest of `absDate(abs, true)`: month and day of the month from the year and the day
within the year. -/
def monthDay (year : Int) (yday : Nat) : Nat × Nat :=
  if isLeap year && yday = 31 + 29 - 1 then (2, 29)
  else
    let day := if isLeap year && yday > 31 + 29 - 1 then yday - 1 else yday
    let month := day / 31
    if day ≥ daysBefore (month + 1) then (month + 2, day - daysBefore (month + 1) + 1)
    else (month + 1, day - daysBefore month + 1)

/-- `absDate(abs, true)`: year, month and day of an absolute second count. -/
def absDate (abs : Nat) : Int × Nat × Nat :=
  ((absYearDay abs).1, monthDay (absYearDay abs).1 (absYearDay abs).2)

end time

/-- `time.Date(year, month, day, hour, min, sec, nsec, time.UTC)`, the location being the
one the source passes: the arguments are normalised, counted in seconds from the absolute
epoch in 64-bit arithmetic and stored; the result is given by what the accessors of the
stored time read back.  Years outside `absoluteZeroYear .. lastYear` are not read back as
they were given. -/
def Time.Date (year month day hour min sec nsec : Int) : Time :=
  let abs := time.absOf (time.dateExt (time.dateAbs year month day hour min sec nsec).1)
  let ymd := time.absDate abs
  let clock := abs % 86400
  { year := ymd.1, month := ymd.2.1, day := ymd.2.2,
    hour := clock / 3600, min := clock % 3600 / 60, sec := clock % 60,
    nsec := (time.dateAbs year month day hour min sec nsec).2.toNat, loc := Location.UTC }

/-- `(Time).Year()`. -/
def Time.Year (t : Time) : Int := t.year

/-- Decimal digits of a natural number, most significant first (`fuel` bounds the length). -/
def natDigits : Nat → Nat → GoString → GoString
  | 0, _, acc => acc
  | fuel + 1, n, acc =>
    if n < 10 then (ch '0' + UInt8.ofNat n) :: acc
    else natDigits fuel (n / 10) ((ch '0' + UInt8.ofNat (n % 10)) :: acc)

/-- The verb `%d` of `fmt.Sprintf` on an `int`. -/
def fmtInt (i : Int) : GoString :=
  match i with
  | .ofNat n => natDigits (n + 1) n []
  | .negSucc n => ch '-' :: natDigits (n + 2) (n + 1) []

/-! ## `strings.TrimSpace` and `strconv.ParseInt` -/

/-- The six ASCII white space bytes (`asciiSpace`). -/
def asciiSpace (c : UInt8) : Bool :=
  c = 0x09 || c = 0x0A || c = 0x0B || c = 0x0C || c = 0x0D || c = 0x20

/-- Third byte of the UTF-8 form `E2 80 xx` of the white space runes U+2000..U+200A,
U+2028, U+2029 and U+202F. -/
def spaceE280 (b : UInt8) : Bool :=
  (0x80 ≤ b && b ≤ 0x8A) || b = 0xA8 || b = 0xA9 || b = 0xAF

/-- `strings.TrimLeftFunc(s, unicode.IsSpace)`: drops the leading white space runes, which
are the ASCII ones and U+0085, U+00A0, U+1680, U+2000..U+200A, U+2028, U+2029, U+202F,
U+205F, U+3000 in UTF-8. -/
def trimLeft : GoString → GoString
  | [] => []
  | c :: s =>
    if asciiSpace c then trimLeft s
    else
      match s with
      | b :: t =>
        if c = 0xC2 && (b = 0x85 || b = 0xA0) then trimLeft t
        else
          match t with
          | d :: r =>
            if (c = 0xE1 && b = 0x9A && d = 0x80) || (c = 0xE2 && b = 0x80 && spaceE280 d) ||
                (c = 0xE2 && b = 0x81 && d = 0x9F) || (c = 0xE3 && b = 0x80 && d = 0x80) then
              trimLeft r
            else c :: s
          | [] => c :: s
      | [] => c :: s

/-- The same on the reversed string: drops white space runes read from the end. -/
def trimLeftRev : GoString → GoString
  | [] => []
  | c :: s =>
    if asciiSpace c then trimLeftRev s
    else
      match s with
      | b :: t =>
        if b = 0xC2 && (c = 0x85 || c = 0xA0) then trimLeftRev t
        else
          match t with
          | d :: r =>
            if (d = 0xE1 && b = 0x9A && c = 0x80) || (d = 0xE2 && b = 0x80 && spaceE280 c) ||
                (d = 0xE2 && b = 0x81 && c = 0x9F) || (d = 0xE3 && b = 0x80 && c = 0x80) then
              trimLeftRev r
            else c :: s
          | [] => c :: s
      | [] => c :: s

/-- `strings.TrimSpace(s)`. -/
def TrimSpace (s : GoString) : GoString := (trimLeftRev (trimLeft s).reverse).reverse

/-- The digit loop of `strconv.ParseUint(s, 10, 64)`; the error is `true` for `ErrRange`,
`false` for `ErrSyntax`. -/
def parseUintLoop : Nat → GoString → Except Bool Nat
  | n, [] => .ok n
  | n, c :: s =>
    if !(ch '0' ≤ c && c ≤ ch '9') then .error false
    else if n ≥ (2 ^ 64 - 1) / 10 + 1 then .error true
    else if n * 10 + (c - ch '0').toNat > 2 ^ 64 - 1 then .error true
    else parseUintLoop (n * 10 + (c - ch '0').toNat) s

/-- `strconv.ParseInt(s, 10, 64)`. -/
def ParseInt (s0 : GoString) : Except Error Int :=
  match s0 with
  | [] => .error (.NumError "ParseInt" s0 false)
  | c :: t =>
    let neg : Bool := c = ch '-'
    let s : GoString := if c = ch '+' || c = ch '-' then t else s0
    if s = [] then .error (.NumError "ParseInt" s0 false)
    else
      match parseUintLoop 0 s with
      | .error false => .error (.NumError "ParseInt" s0 false)
      | .error true => .error (.NumError "ParseInt" s0 true)
      | .ok un =>
        if !neg && un ≥ 2 ^ 63 then .error (.NumError "ParseInt" s0 true)
        else if neg && un > 2 ^ 63 then .error (.NumError "ParseInt" s0 true)
        else .ok (if neg then -(un : Int) else (un : Int))

/-! ## `encoding/xml` -/

namespace xml

/-- `xml.Name`. -/
structure Name where
  Space : GoString := []
  Local : GoString := []
  deriving DecidableEq, Repr

/-- `xml.Attr`. -/
structure Attr where
  Name : Name
  Value : GoString
  deriving DecidableEq, Repr

/-- The content of a well-formed document under its first element, as the decoder's token
stream nests it: child elements (names already translated to their name space), character
data, and the tokens `Unmarshal` ignores for the field kinds used here (comments,
processing instructions, directives). -/
inductive Node where
  | element (name : Name) (attr : List Attr) (children : List Node)
  | charData (data : GoString)
  | ignored (data : GoString)
  deriving Repr

/-- The first element of a document: what `Decoder.unmarshal` starts from. -/
structure Element where
  name : Name
  attr : List Attr := []
  children : List Node := []
  deriving Repr

/-- The syntax layer of `encoding/xml` (`Decoder.Token`), which is outside this repository:
it yields the first element of the document, or the error of a document that is not well
formed.  (The library interleaves it with the field decoding below, so on a document with
both a syntax error and an unparsable number it returns the one that comes first; the
identity of a decode error is not observed by anything stated here.) -/
abbrev Syntax := GoString → Except Error Element

/-- The character data directly under an element, concatenated (`data = append(data, t...)`
for each `CharData` token at that depth). -/
def charDataOf (children : List Node) : GoString :=
  children.flatMap fun n =>
    match n with
    | .charData d => d
    | _ => []

/-- `copyValue(dst, src)` for a destination of kind `reflect.Int`: empty data sets `0`,
anything else goes through `strconv.ParseInt(strings.TrimSpace(string(src)), 10, 64)`. -/
def copyValueInt (src : GoString) : Except Error Int :=
  if src.length = 0 then .ok 0 else ParseInt (TrimSpace src)

/-- The value an `attr` field named `name` (no name space in its tag) takes from the
attributes of a start element: each matching attribute is assigned in turn. -/
def assignAttr (name : GoString) (old : GoString) (attr : List Attr) : GoString :=
  attr.foldl (fun v a => if a.Name.Local = name then a.Value else v) old

/-- The same for a tag that names a name space (`xml:"xmlns wb,attr"`). -/
def assignAttrNS (space name : GoString) (old : GoString) (attr : List Attr) : GoString :=
  attr.foldl (fun v a => if a.Name.Local = name && a.Name.Space = space then a.Value else v) old

end xml

/-! ## The package -/

/-- `WorldBankResponse.Data[i].Indicator`. -/
structure DataIndicator where
  XMLName : xml.Name := {}
  ID : GoString := []
  Indicator : GoString := []
  deriving DecidableEq, Repr

/-- `WorldBankResponse.Data[i].Country`. -/
structure DataCountry where
  XMLName : xml.Name := {}
  ID : GoString := []
  Country : GoString := []
  deriving DecidableEq, Repr

/-- `WorldBankResponse.Data[i].CountryISO3Code`. -/
structure DataCountryISO3Code where
  XMLName : xml.Name := {}
  CountryISO3Code : GoString := []
  deriving DecidableEq, Repr

/-- `WorldBankResponse.Data[i].Date`. -/
structure DataDate where
  XMLName : xml.Name := {}
  Date : Int := 0
  deriving DecidableEq, Repr

/-- `WorldBankResponse.Data[i].Value`. -/
structure DataValue where
  XMLName : xml.Name := {}
  Value : Int := 0
  deriving DecidableEq, Repr

/-- `WorldBankResponse.Data[i].Unit`. -/
structure DataUnit where
  XMLName : xml.Name := {}
  deriving DecidableEq, Repr

/-- `WorldBankResponse.Data[i].OBSStatus`. -/
structure DataOBSStatus where
  XMLName : xml.Name := {}
  deriving DecidableEq, Repr

/-- `WorldBankResponse.Data[i].Decimal`. -/
structure DataDecimal where
  XMLName : xml.Name := {}
  Decimal : GoString := []
  deriving DecidableEq, Repr

/-- One element of `WorldBankResponse.Data`. -/
structure Data where
  Indicator : DataIndicator := {}
  Country : DataCountry := {}
  CountryISO3Code : DataCountryISO3Code := {}
  Date : DataDate := {}
  Value : DataValue := {}
  Unit : DataUnit := {}
  OBSStatus : DataOBSStatus := {}
  Decimal : DataDecimal := {}
  deriving DecidableEq, Repr

/-- `WorldBankResponse`: the raw response received from The World Bank. -/
structure WorldBankResponse where
  AttrXmlnswb : GoString := []
  Attrpage : GoString := []
  Attrpages : GoString := []
  AttrPerPage : GoString := []
  Attrtotal : GoString := []
  Attrlastupdated : GoString := []
  Data : List Data := []
  deriving DecidableEq, Repr

/-- The name space every element tag of `WorldBankResponse` names. -/
def wbSpace : GoString := str "http://www.worldbank.org"

/-- Whether a start element is the one a field tagged
`xml:"http://www.worldbank.org <name>,omitempty"` takes (`unmarshalPath`: same name space,
same local name, no parent path). -/
def matchesField (name : xml.Name) (field : String) : Bool :=
  name.Space = wbSpace && name.Local = str field

/-- What `unmarshalPath` does with one child of a `<data>` element: the first field whose
tag matches takes it (its struct is filled: `XMLName` from the start element, `attr`
fields from the attributes, the `chardata` field from the character data), any other
child is skipped.  The only fallible assignments are the two `int` fields. -/
def unmarshalDataChild (d : Data) : xml.Node → Except Error Data
  | .element name attr children =>
    if matchesField name "indicator" then
      .ok { d with Indicator :=
        { XMLName := name, ID := xml.assignAttr (str "id") d.Indicator.ID attr,
          Indicator := xml.charDataOf children } }
    else if matchesField name "country" then
      .ok { d with Country :=
        { XMLName := name, ID := xml.assignAttr (str "id") d.Country.ID attr,
          Country := xml.charDataOf children } }
    else if matchesField name "countryiso3code" then
      .ok { d with CountryISO3Code :=
        { XMLName := name, CountryISO3Code := xml.charDataOf children } }
    else if matchesField name "date" then
      match xml.copyValueInt (xml.charDataOf children) with
      | .error err => .error err
      | .ok v => .ok { d with Date := { XMLName := name, Date := v } }
    else if matchesField name "value" then
      match xml.copyValueInt (xml.charDataOf children) with
      | .error err => .error err
      | .ok v => .ok { d with Value := { XMLName := name, Value := v } }
    else if matchesField name "unit" then
      .ok { d with Unit := { XMLName := name } }
    else if matchesField name "obs_status" then
      .ok { d with OBSStatus := { XMLName := name } }
    else if matchesField name "decimal" then
      .ok { d with Decimal := { XMLName := name, Decimal := xml.charDataOf children } }
    else .ok d
  | _ => .ok d

/-- The token loop of `unmarshal` over the content of an element, for a struct whose
children are handled by `step`; the first error ends it. -/
def unmarshalChildren {α : Type} (step : α → xml.Node → Except Error α) :
    α → List xml.Node → Except Error α
  | a, [] => .ok a
  | a, n :: ns =>
    match step a n with
    | .error err => .error err
    | .ok b => unmarshalChildren step b ns

/-- `unmarshal` into a fresh element of the slice `Data`. -/
def unmarshalData (children : List xml.Node) : Except Error Data :=
  unmarshalChildren unmarshalDataChild {} children

/-- One child of the first element: a `<data>` element of the World Bank name space is
appended to `Data` (`reflect.Append` of a zero element, then `unmarshal` into it), any
other child is skipped. -/
def unmarshalRootChild (wr : WorldBankResponse) : xml.Node → Except Error WorldBankResponse
  | .element name _ children =>
    if matchesField name "data" then
      match unmarshalData children with
      | .error err => .error err
      | .ok d => .ok { wr with Data := wr.Data ++ [d] }
    else .ok wr
  | _ => .ok wr

/-- `unmarshal` of the first element into a zero `WorldBankResponse`: the struct has no
`XMLName`, so any element name is accepted; its attributes are assigned first. -/
def unmarshalRoot (e : xml.Element) : Except Error WorldBankResponse :=
  unmarshalChildren unmarshalRootChild
    { AttrXmlnswb := xml.assignAttrNS (str "xmlns") (str "wb") [] e.attr,
      Attrpage := xml.assignAttr (str "page") [] e.attr,
      Attrpages := xml.assignAttr (str "pages") [] e.attr,
      AttrPerPage := xml.assignAttr (str "per_page") [] e.attr,
      Attrtotal := xml.assignAttr (str "total") [] e.attr,
      Attrlastupdated := xml.assignAttr (str "lastupdated") [] e.attr }
    e.children

/-- `xml.Unmarshal(bdy, &wr)` for `wr := &WorldBankResponse{}`. -/
def xml.Unmarshal (x : xml.Syntax) (bdy : GoString) : Except Error WorldBankResponse :=
  match x bdy with
  | .error err => .error err
  | .ok e => unmarshalRoot e

/-- The character data of the children that a field tagged with the World Bank name space
and the local name `field` takes, in document order. -/
def fieldTexts (field : String) : List xml.Node → List GoString
  | [] => []
  | .element name _ children :: ns =>
    if matchesField name field then xml.charDataOf children :: fieldTexts field ns
    else fieldTexts field ns
  | _ :: ns => fieldTexts field ns

/-- Whether `copyValue` accepts the text for an `int` field. -/
def xml.intReadable (t : GoString) : Bool :=
  match xml.copyValueInt t with
  | .ok _ => true
  | .error _ => false

/-- The integer `copyValue` reads from the text (`0` where it reads none). -/
def xml.intOf (t : GoString) : Int :=
  match xml.copyValueInt t with
  | .ok v => v
  | .error _ => 0

/-- The integer a field holds after the given texts were assigned to it in turn, starting
from `init`: the reading of the last one. -/
def fieldIntFrom (init : Int) (texts : List GoString) : Int :=
  texts.foldl (fun _ t => xml.intOf t) init

/-- The integer an `int` field of a fresh `Data` holds after the children of a `<data>`
element were read: `0` when no child is taken by the field. -/
def fieldInt (field : String) (children : List xml.Node) : Int :=
  fieldIntFrom 0 (fieldTexts field children)

/-- The contents of the `<data>` elements under the first element, in document order. -/
def dataEntries : List xml.Node → List (List xml.Node)
  | [] => []
  | .element name _ children :: ns =>
    if matchesField name "data" then children :: dataEntries ns else dataEntries ns
  | _ :: ns => dataEntries ns

/-! ### `net/http`, `io/ioutil` -/

/-- An `io.ReadCloser` as far as `ioutil.ReadAll` observes it: the bytes it delivers and
the error, if any, that ends the reading. -/
structure ReadCloser where
  data : GoString
  err : Option Error := none
  deriving DecidableEq, Repr

/-- `ioutil.ReadAll(r)`. -/
def ioutil.ReadAll (r : ReadCloser) : GoString × Option Error := (r.data, r.err)

/-- `http.Response`, with the fields a caller can look at. -/
structure http.Response where
  Status : GoString
  StatusCode : Int
  Header : List (GoString × List GoString) := []
  Body : ReadCloser
  deriving DecidableEq, Repr

/-- `*http.Client`, the transport: `Get` answers a URL string with a response or an error
and may change the state `σ` of the outside world (a call log, a counter, a network). -/
structure http.Client (σ : Type) where
  Get : GoString → σ → Except Error http.Response × σ

/-- Modelled from the spec: the type `Provider` of the package, declared outside
`worldbank.go`: "a provider identifier (string tag naming the data source)". -/
abbrev Provider := GoString

/-- Modelled from the spec: the type `Instant` of the package, declared outside
`worldbank.go`: an observation, "a date ... and a numeric value". -/
structure Instant where
  Date : Time
  Value : Int
  deriving DecidableEq, Repr

/-- Modelled from the spec: the type `Response` of the package, declared outside
`worldbank.go`: "a provider identifier ... and an ordered sequence of Observations". -/
structure Response where
  Provider : Provider
  History : List Instant := []
  deriving DecidableEq, Repr

/-- The observation of a `<data>` element, read from that element alone. -/
def entryInstant (children : List xml.Node) : Instant :=
  { Date := Time.Date (fieldInt "date" children) 12 31 0 0 0 0,
    Value := fieldInt "value" children }

/-- `WorldBank` holds settings for The World Bank API. -/
structure WorldBank (σ : Type) where
  HTTPClient : http.Client σ

/-- `TheWorldBankProvider` indicates the data came from The World Bank Group. -/
def TheWorldBankProvider : Provider := str "The World Bank"

/-- `(*WorldBank).buildURL`. -/
def WorldBank.buildURL {σ : Type} (_w : WorldBank σ) (country : GoString) (from_ to_ : Time) :
    Except Error url.URL :=
  match url.Parse
      (str "http://api.worldbank.org/v2/countries/" ++ country ++ str "/indicators/SP.POP.TOTL") with
  | .error err => .error err
  | .ok u =>
    let q := u.Query
    let q := q.Add (str "date") (fmtInt from_.Year ++ ch ':' :: fmtInt to_.Year)
    .ok { u with RawQuery := q.Encode }

/-- The loop of `Fetch` over `wr.Data`: one `Instant` appended to `r.History` per entry. -/
def appendHistory (r : Response) (pp : Data) : Response :=
  { r with History := r.History ++
      [{ Date := Time.Date pp.Date.Date 12 31 0 0 0 0, Value := pp.Value.Value }] }

/-- `(*WorldBank).Fetch` retrieves population data from The World Bank.  The result is the
pair `(*Response, error)` of the source, `none` standing for `nil`, and the state of the
outside world after the call. -/
def WorldBank.Fetch {σ : Type} (x : xml.Syntax) (w : WorldBank σ) (country : GoString)
    (from_ to_ : Time) (s : σ) : (Option Response × Option Error) × σ :=
  match w.buildURL country from_ to_ with
  | .error err => ((none, some err), s)
  | .ok u =>
    match w.HTTPClient.Get u.String s with
    | (.error err, s1) => ((none, some err), s1)
    | (.ok resp, s1) =>
      match ioutil.ReadAll resp.Body with
      | (_, some err) => ((none, some err), s1)
      | (bdy, none) =>
        match xml.Unmarshal x bdy with
        | .error err => ((none, some err), s1)
        | .ok wr =>
          let r : Response := { Provider := TheWorldBankProvider }
          ((some (wr.Data.foldl appendHistory r), none), s1)

/-! ## Concrete inputs used to exercise the statements -/

/-- A transport wrapped so that it counts its `Get` calls in the state. -/
def http.Client.counting {σ : Type} (c : http.Client σ) : http.Client (σ × Nat) :=
  ⟨fun u s => ((c.Get u s.1).1, ((c.Get u s.1).2, s.2 + 1))⟩

/-- A stub transport: a fixed function of the URL string; the state logs the URLs asked. -/
def stubClient (answer : GoString → Except Error http.Response) : http.Client (List GoString) :=
  ⟨fun u log => (answer u, log ++ [u])⟩

/-- An element `<wb:name>text</wb:name>` of the World Bank name space. -/
def wbText (name text : String) : xml.Node :=
  .element ⟨wbSpace, str name⟩ [] (if text = "" then [] else [.charData (str text)])

/-- A `<wb:data>` entry with the given year and value texts. -/
def wbEntry (year value : String) : xml.Node :=
  .element ⟨wbSpace, str "data"⟩ []
    [wbText "indicator" "Population, total", wbText "country" "Italy",
     wbText "countryiso3code" "ITA", wbText "date" year, wbText "value" value,
     wbText "unit" "", wbText "obs_status" "", wbText "decimal" "0"]

/-- The document of the example: Italy, 2010 to 2012. -/
def italyDoc : xml.Element :=
  { name := ⟨wbSpace, str "data"⟩,
    attr := [⟨⟨str "xmlns", str "wb"⟩, wbSpace⟩, ⟨⟨[], str "page"⟩, str "1"⟩],
    children := [wbEntry "2010" "59190143", wbEntry "2011" "59364690",
                 wbEntry "2012" "59539717"] }

/-- A document with gaps: the first entry has no `<wb:value>`, the second an empty
`<wb:date/>`, the third neither element, the fourth both. -/
def gappyDoc : xml.Element :=
  { name := ⟨wbSpace, str "data"⟩,
    children := [
      .element ⟨wbSpace, str "data"⟩ [] [wbText "country" "Italy", wbText "date" "2019"],
      .charData (str "\n"),
      .element ⟨wbSpace, str "data"⟩ [] [wbText "date" "", wbText "value" "60000000"],
      .element ⟨wbSpace, str "data"⟩ [] [wbText "unit" ""],
      wbEntry "2012" "59539717"] }

/-- A document whose only entry bears the year 1000000000000. -/
def farYearDoc : xml.Element :=
  { name := ⟨wbSpace, str "data"⟩, children := [wbEntry "1000000000000" "7"] }

/-- A syntax layer that reads every body as the example document. -/
def italySyntax : xml.Syntax := fun _ => .ok italyDoc

/-- A response with the given status code and body bytes. -/
def httpResponse (code : Int) (body : GoString) : http.Response :=
  { Status := fmtInt code, StatusCode := code, Body := { data := body } }

/-- The adapter over a stub that answers every URL with status 200 and a fixed body. -/
def italyBank : WorldBank (List GoString) :=
  ⟨stubClient fun _ => .ok (httpResponse 200 (str "<wb:data/>"))⟩

/-- The URL `buildURL` makes for Italy and the given years (as printed by `%d`). -/
def italyURL (fromYear toYear : String) : url.URL :=
  { Scheme := str "http", Host := str "api.worldbank.org",
    Path := str "/v2/countries/it/indicators/SP.POP.TOTL",
    RawQuery := str "date=" ++ str fromYear ++ str "%3A" ++ str toYear }

/-- January 1 of a year, UTC. -/
def newYear (y : Int) : Time :=
  { year := y, month := 1, day := 1, hour := 0, min := 0, sec := 0, nsec := 0,
    loc := Location.UTC }

/-- The observation the loop of `Fetch` makes of one entry. -/
def instantOf (pp : Data) : Instant :=
  { Date := Time.Date pp.Date.Date 12 31 0 0 0 0, Value := pp.Value.Value }

/-- The envelope `encoding/xml` decodes from the example document. -/
def italyEnvelope : WorldBankResponse :=
  match unmarshalRoot italyDoc with
  | .ok wr => wr
  | .error _ => {}

/-- Another document with the years and values of the example: a differently named first
element without attributes, a comment between the entries, and a last entry that holds
nothing but its value and its year, in that order and with white space around them. -/
def italyVariantDoc : xml.Element :=
  { name := ⟨[], str "x"⟩,
    children := [wbEntry "2010" "59190143", .ignored (str " note "), wbEntry "2011" "59364690",
      .element ⟨wbSpace, str "data"⟩ [] [wbText "value" " 59539717", wbText "date" "2012\n"]] }

/-- The envelope `encoding/xml` decodes from the variant document. -/
def italyVariantEnvelope : WorldBankResponse :=
  match unmarshalRoot italyVariantDoc with
  | .ok wr => wr
  | .error _ => {}

/-- The year and the value of an entry: all that `Fetch` reads of it. -/
def yearValue (pp : Data) : Int × Int := (pp.Date.Date, pp.Value.Value)

/-- The adapter with its transport counting the calls. -/
def WorldBank.counting {σ : Type} (w : WorldBank σ) : WorldBank (σ × Nat) :=
  ⟨w.HTTPClient.counting⟩

/-- The adapter over a stub that answers every URL with the given status and body. -/
def statusBank (code : Int) (body : GoString) : WorldBank (List GoString) :=
  ⟨stubClient fun _ => .ok (httpResponse code body)⟩

/-- The adapter over a stub whose every call fails with the given error. -/
def failingBank (e : Error) : WorldBank (List GoString) := ⟨stubClient fun _ => .error e⟩

/-! ## Properties of `net/url` -/

namespace url
open encoding

theorem forall_byte (P : UInt8 → Prop) (h : ∀ n : Fin 256, P (UInt8.ofNat n.val)) : ∀ c, P c := by
  intro c
  have e : UInt8.ofNat c.toNat = c := by
    cases c with
    | mk b => simp [UInt8.ofNat, UInt8.toNat]
  simpa [e] using h ⟨c.toNat, c.toNat_lt⟩

theorem escape_cons (c : UInt8) (s : GoString) :
    escape (c :: s) encodeQueryComponent = escapeByte c ++ escape s encodeQueryComponent := by
  simp [escape, escapeByte]

theorem escapeByte_cases : ∀ c : UInt8,
    escapeByte c = [ch '+'] ∧ c = ch ' ' ∨
    (escapeByte c = [ch '%', upperhex (c >>> 4), upperhex (c &&& 15)] ∧
      ishex (upperhex (c >>> 4)) = true ∧ ishex (upperhex (c &&& 15)) = true ∧
      (unhex (upperhex (c >>> 4)) <<< 4 ||| unhex (upperhex (c &&& 15))) = c) ∨
    (escapeByte c = [c] ∧ c ≠ ch '%' ∧ c ≠ ch '+') := by
  apply forall_byte
  decide

theorem escapeByte_clean : ∀ c : UInt8, ∀ b ∈ escapeByte c,
    b ≠ ch '&' ∧ b ≠ ch '=' ∧ b ≠ ch ';' := by
  apply forall_byte
  decide

theorem unescapeCheck_plain (mode : encoding) (c : UInt8) (t : GoString) (h1 : c ≠ ch '%')
    (h2 : mode ≠ encodeHost) (h3 : mode ≠ encodeZone) :
    unescapeCheck mode (c :: t) = unescapeCheck mode t := by
  conv_lhs => rw [unescapeCheck.eq_def]
  simp [h1, h2, h3]

theorem unescapeRewrite_plain (mode : encoding) (c : UInt8) (t : GoString) (h1 : c ≠ ch '%') :
    unescapeRewrite mode (c :: t) =
      (if c = ch '+' ∧ mode = encodeQueryComponent then ch ' ' else c) :: unescapeRewrite mode t := by
  conv_lhs => rw [unescapeRewrite.eq_def]
  by_cases h : c = ch '+'
  · subst h
    have hne : ¬ (ch '+' = ch '%') := by decide
    by_cases hm : mode = encodeQueryComponent <;> simp [hne, hm]
  · simp [h1, h]

theorem unescapeCheck_escapeByte (c : UInt8) (t : GoString) :
    unescapeCheck encodeQueryComponent (escapeByte c ++ t) =
      unescapeCheck encodeQueryComponent t := by
  rcases escapeByte_cases c with ⟨h, -⟩ | ⟨h, h1, h2, -⟩ | ⟨h, h1, h2⟩
  · rw [h]; exact unescapeCheck_plain _ _ _ (by decide) (by decide) (by decide)
  · rw [h]; simp [unescapeCheck, h1, h2]
  · rw [h]; exact unescapeCheck_plain _ _ _ h1 (by decide) (by decide)

theorem unescapeRewrite_escapeByte (c : UInt8) (t : GoString) :
    unescapeRewrite encodeQueryComponent (escapeByte c ++ t) =
      c :: unescapeRewrite encodeQueryComponent t := by
  rcases escapeByte_cases c with ⟨h, hc⟩ | ⟨h, -, -, h3⟩ | ⟨h, h1, h2⟩
  · rw [h, hc]
    simp only [List.singleton_append]
    rw [unescapeRewrite_plain _ _ _ (by decide)]
    simp
  · rw [h]; simp [unescapeRewrite, h3]
  · rw [h]
    simp only [List.singleton_append]
    rw [unescapeRewrite_plain _ _ _ h1]
    simp [h2]

theorem unescapeCheck_escape (s : GoString) :
    unescapeCheck encodeQueryComponent (escape s encodeQueryComponent) = none := by
  induction s with
  | nil => simp [escape, unescapeCheck]
  | cons c s ih => rw [escape_cons, unescapeCheck_escapeByte, ih]

theorem unescapeRewrite_escape (s : GoString) :
    unescapeRewrite encodeQueryComponent (escape s encodeQueryComponent) = s := by
  induction s with
  | nil => simp [escape, unescapeRewrite]
  | cons c s ih => rw [escape_cons, unescapeRewrite_escapeByte, ih]

/-- `QueryUnescape` undoes `QueryEscape`. -/
theorem QueryUnescape_QueryEscape (s : GoString) : QueryUnescape (QueryEscape s) = .ok s := by
  simp [QueryUnescape, QueryEscape, unescape, unescapeCheck_escape, unescapeRewrite_escape]

theorem QueryEscape_clean (s : GoString) :
    ∀ b ∈ QueryEscape s, b ≠ ch '&' ∧ b ≠ ch '=' ∧ b ≠ ch ';' := by
  induction s with
  | nil => simp [QueryEscape, escape]
  | cons c s ih =>
    intro b hb
    rw [QueryEscape, escape_cons, List.mem_append] at hb
    rcases hb with hb | hb
    · exact escapeByte_clean c b hb
    · exact ih b hb

end url

namespace url
open encoding

theorem cut_append_sep (sep : UInt8) (a b : GoString) (h : sep ∉ a) :
    cut sep (a ++ sep :: b) = (a, b) := by
  induction a with
  | nil => simp [cut]
  | cons c a ih =>
    have hc : c ≠ sep := fun e => h (by simp [e])
    have ha : sep ∉ a := fun e => h (by simp [e])
    simp [cut, hc, ih ha]

theorem cut_of_not_mem (sep : UInt8) (a : GoString) (h : sep ∉ a) : cut sep a = (a, []) := by
  induction a with
  | nil => simp [cut]
  | cons c a ih =>
    have hc : c ≠ sep := fun e => h (by simp [e])
    have ha : sep ∉ a := fun e => h (by simp [e])
    simp [cut, hc, ih ha]

theorem Values.lookup_store (m : Values) (key key' : GoString) (vs : List GoString) :
    (m.store key vs).lookup key' = if key = key' then vs else m.lookup key' := by
  induction m with
  | nil => simp [Values.store, Values.lookup]
  | cons p m ih =>
    obtain ⟨k, ws⟩ := p
    by_cases h : k = key
    · subst h
      by_cases h' : k = key' <;> simp [Values.store, Values.lookup, h']
    · by_cases h' : k = key'
      · subst h'
        simp [Values.store, Values.lookup, h, Ne.symm h]
      · simp [Values.store, Values.lookup, h, h', ih]

theorem Values.mem_keys_store (m : Values) (key : GoString) (vs : List GoString) :
    key ∈ (m.store key vs).map Prod.fst := by
  induction m with
  | nil => simp [Values.store]
  | cons p m ih =>
    obtain ⟨k, ws⟩ := p
    by_cases h : k = key
    · simp [Values.store, h]
    · simp only [Values.store, h, if_false, List.map_cons, List.mem_cons]
      exact Or.inr ih

theorem Values.lookup_Add (m : Values) (key key' value : GoString) :
    (m.Add key value).lookup key' =
      if key = key' then m.lookup key' ++ [value] else m.lookup key' := by
  rw [Values.Add, Values.lookup_store]
  by_cases h : key = key' <;> simp [h]

theorem Values.mem_lookup_Add (m : Values) (key key' value v : GoString)
    (h : v ∈ m.lookup key') : v ∈ (m.Add key value).lookup key' := by
  rw [Values.lookup_Add]
  split
  · exact List.mem_append_left _ h
  · exact h

theorem mem_insertKey (k x : GoString) (ks : List GoString) :
    x ∈ insertKey k ks ↔ x = k ∨ x ∈ ks := by
  induction ks with
  | nil => simp [insertKey]
  | cons y ys ih =>
    by_cases h : strLess y k = true
    · simp only [insertKey, h, if_true, List.mem_cons, ih]
      tauto
    · simp [insertKey, h]

theorem mem_sortKeys (x : GoString) (ks : List GoString) : x ∈ sortKeys ks ↔ x ∈ ks := by
  induction ks with
  | nil => simp [sortKeys]
  | cons y ys ih => simp [sortKeys, mem_insertKey, ih]

theorem parseQueryLoop_append (comp : GoString) (h : ch '&' ∉ comp) (m : Values)
    (cur rest : GoString) :
    parseQueryLoop m cur (comp ++ rest) = parseQueryLoop m (cur ++ comp) rest := by
  induction comp generalizing cur with
  | nil => simp
  | cons c comp ih =>
    have hc : c ≠ ch '&' := fun e => h (by simp [e])
    have ha : ch '&' ∉ comp := fun e => h (by simp [e])
    simp [parseQueryLoop, hc, ih ha]

theorem parseQueryLoop_joinAmp (comps : List GoString) (h : ∀ c ∈ comps, ch '&' ∉ c)
    (m : Values) :
    parseQueryLoop m [] (joinAmp comps) = comps.foldl parseQueryStep m := by
  induction comps generalizing m with
  | nil => simp [joinAmp, parseQueryLoop, parseQueryStep]
  | cons p ps ih =>
    cases ps with
    | nil =>
      have := parseQueryLoop_append p (h p (by simp)) m [] []
      simp only [List.append_nil, List.nil_append] at this
      simp [joinAmp, this, parseQueryLoop]
    | cons q qs =>
      have h1 := parseQueryLoop_append p (h p (by simp)) m [] (ch '&' :: joinAmp (q :: qs))
      simp only [List.nil_append] at h1
      rw [joinAmp, h1, parseQueryLoop]
      simp only [if_true, List.foldl_cons]
      rw [ih (fun c hc => h c (List.mem_cons_of_mem _ hc))]
      simp

/-- One escaped pair of `Encode` is read back by `parseQuery` as that pair. -/
theorem parseQueryStep_escaped (m : Values) (k x : GoString) :
    parseQueryStep m (QueryEscape k ++ ch '=' :: QueryEscape x) = m.Add k x := by
  have hk := QueryEscape_clean k
  have hx := QueryEscape_clean x
  have h1 : (QueryEscape k ++ ch '=' :: QueryEscape x).contains (ch ';') = false := by
    rw [Bool.eq_false_iff]
    intro hc
    simp only [List.contains_eq_any_beq, List.any_eq_true, beq_iff_eq] at hc
    obtain ⟨y, hc, rfl⟩ := hc
    rcases List.mem_append.1 hc with hc | hc
    · exact (hk _ hc).2.2 rfl
    · rcases List.mem_cons.1 hc with hc | hc
      · exact absurd hc (by decide)
      · exact (hx _ hc).2.2 rfl
  have h2 : QueryEscape k ++ ch '=' :: QueryEscape x ≠ [] := by simp
  have h3 : cut (ch '=') (QueryEscape k ++ ch '=' :: QueryEscape x) =
      (QueryEscape k, QueryEscape x) :=
    cut_append_sep _ _ _ (fun hc => (hk _ hc).2.1 rfl)
  simp only [parseQueryStep, h1, h3, QueryUnescape_QueryEscape]
  simp

theorem escapedPair_no_amp (c : GoString) (h : escapedPair c) : ch '&' ∉ c := by
  obtain ⟨k, x, rfl⟩ := h
  intro hc
  rcases List.mem_append.1 hc with hc | hc
  · exact (QueryEscape_clean k _ hc).1 rfl
  · rcases List.mem_cons.1 hc with hc | hc
    · exact absurd hc (by decide)
    · exact (QueryEscape_clean x _ hc).1 rfl

theorem foldl_parseQueryStep_keeps (comps : List GoString) (h : ∀ c ∈ comps, escapedPair c)
    (m : Values) (key v : GoString) (hv : v ∈ m.lookup key) :
    v ∈ (comps.foldl parseQueryStep m).lookup key := by
  induction comps generalizing m with
  | nil => simpa using hv
  | cons c cs ih =>
    obtain ⟨k, x, rfl⟩ := h c (by simp)
    rw [List.foldl_cons, parseQueryStep_escaped]
    exact ih (fun c hc => h c (List.mem_cons_of_mem _ hc)) _ (Values.mem_lookup_Add _ _ _ _ _ hv)

theorem foldl_parseQueryStep_mem (comps : List GoString) (h : ∀ c ∈ comps, escapedPair c)
    (m : Values) (key v : GoString)
    (hv : QueryEscape key ++ ch '=' :: QueryEscape v ∈ comps) :
    v ∈ (comps.foldl parseQueryStep m).lookup key := by
  induction comps generalizing m with
  | nil => simp at hv
  | cons c cs ih =>
    have hcs : ∀ c ∈ cs, escapedPair c := fun c hc => h c (List.mem_cons_of_mem _ hc)
    rcases List.mem_cons.1 hv with hv | hv
    · rw [List.foldl_cons, ← hv, parseQueryStep_escaped]
      apply foldl_parseQueryStep_keeps _ hcs
      rw [Values.lookup_Add]
      simp
    · rw [List.foldl_cons]
      exact ih hcs _ hv

theorem Values.mem_keys_of_lookup (m : Values) (key v : GoString) (h : v ∈ m.lookup key) :
    key ∈ m.map Prod.fst := by
  induction m with
  | nil => simp [Values.lookup] at h
  | cons p m ih =>
    obtain ⟨k, ws⟩ := p
    by_cases hk : k = key
    · simp [hk]
    · simp only [Values.lookup, hk, if_false] at h
      simp only [List.map_cons, List.mem_cons]
      exact Or.inr (ih h)

/-- Every value of a `Values` is found again, under its key, in the parse of its encoding. -/
theorem mem_lookup_parse_Encode (m : Values) (key v : GoString) (h : v ∈ m.lookup key) :
    v ∈ (parseQueryLoop [] [] m.Encode).lookup key := by
  have hshape : ∀ c ∈ (sortKeys (m.map Prod.fst)).flatMap (fun k =>
      (m.lookup k).map fun value => QueryEscape k ++ ch '=' :: QueryEscape value),
      escapedPair c := by
    intro c hc
    obtain ⟨k, -, hc⟩ := List.mem_flatMap.1 hc
    obtain ⟨x, -, rfl⟩ := List.mem_map.1 hc
    exact ⟨k, x, rfl⟩
  rw [Values.Encode, parseQueryLoop_joinAmp _ (fun c hc => escapedPair_no_amp c (hshape c hc))]
  apply foldl_parseQueryStep_mem _ hshape
  apply List.mem_flatMap.2
  exact ⟨key, (mem_sortKeys _ _).2 (Values.mem_keys_of_lookup m key v h),
    List.mem_map.2 ⟨v, h, rfl⟩⟩

end url

/-- C3: the URL returned by `buildURL` has a query parameter `date` whose decoded value is
`<from.Year()>:<to.Year()>`, the two years in decimal joined by a colon: that value is
among the values `u.Query()` holds for the key `date` (for every pair of times, so also
for `from <= to`). -/
theorem buildURL_date_parameter {σ : Type} (w : WorldBank σ) (country : GoString)
    (from_ to_ : Time) (u : url.URL) (h : w.buildURL country from_ to_ = .ok u) :
    fmtInt from_.Year ++ ch ':' :: fmtInt to_.Year ∈ u.Query.lookup (str "date") := by
  unfold WorldBank.buildURL at h
  split at h
  · cases h
  · rename_i u0 _
    simp only [Except.ok.injEq] at h
    subst h
    simp only [url.URL.Query]
    apply url.mem_lookup_parse_Encode
    rw [url.Values.lookup_Add]
    simp

/-- The statement exercised on `it`, and on a country that brings a `date` of its own: the
URL then holds both values, the one `buildURL` adds coming last. -/
theorem buildURL_date_parameter_witness :
    str "1960:2018" ∈ (italyURL "1960" "2018").Query.lookup (str "date") ∧
      (str "1960:2018" ∈ (url.URL.Query
          { Scheme := str "http", Host := str "api.worldbank.org",
            Path := str "/v2/countries/it",
            RawQuery := str "date=7%2Findicators%2FSP.POP.TOTL&date=1960%3A2018" }).lookup
          (str "date")) :=
  ⟨buildURL_date_parameter italyBank (str "it") (newYear 1960) (newYear 2018)
     (italyURL "1960" "2018") (by decide),
   buildURL_date_parameter italyBank (str "it?date=7") (newYear 1960) (newYear 2018) _
     (by decide)⟩

/-! ## Properties of `time.Date` -/

/-- Storing an absolute second count and reading it back: the offsets cancel, wrapping
included. -/
theorem absOf_dateExt (abs : Nat) (h : abs < 18446744073709551616) :
    time.absOf (time.dateExt abs) = abs := by
  unfold time.absOf time.dateExt int64 uint64 time.unixToInternal time.absoluteToInternal
  omega

/-- The days before year `absoluteZeroYear + k`, as `daysSinceEpoch` counts them. -/
theorem daysSinceEpoch_eq (y : Int) (k : Nat) (hy : y = (k : Int) - 292277022399)
    (hk : k ≤ 584554049252) :
    time.daysSinceEpoch y =
      146097 * (k / 400) + 36524 * (k % 400 / 100) + 1461 * (k % 400 % 100 / 4) +
        365 * (k % 400 % 100 % 4) := by
  have hu : uint64 (y - time.absoluteZeroYear) = k := by
    unfold uint64 time.absoluteZeroYear
    omega
  unfold time.daysSinceEpoch
  rw [hu]
  simp only [← Nat.mod_def]
  apply Nat.mod_eq_of_lt
  have h1 : k / 400 ≤ 1461385123 := by omega
  have h2 : k % 400 / 100 ≤ 3 := by omega
  have h3 : k % 400 % 100 / 4 ≤ 24 := by omega
  have h4 : k % 400 % 100 % 4 ≤ 3 := by omega
  omega

theorem isLeap_eq (y : Int) (k : Nat) (hy : y = (k : Int) - 292277022399) :
    time.isLeap y = (decide (k % 400 % 100 % 4 = 3) &&
      (decide (k % 400 % 100 / 4 ≠ 24) || decide (k % 400 / 100 = 3))) := by
  unfold time.isLeap
  subst hy
  rw [Bool.eq_iff_iff]
  simp only [Bool.and_eq_true, Bool.or_eq_true, decide_eq_true_eq, ne_eq]
  omega

/-- The step `n = d / daysPer100Years; n -= n >> 2` of `absDate` on day `m` of the
100-year cycle `b`. -/
theorem cut100 (b m : Nat) (hb : b ≤ 3) (hm : m ≤ 36524) (hm' : m = 36524 → b = 3) :
    (36524 * b + m) / 36524 - (36524 * b + m) / 36524 / 4 = b := by
  by_cases hcorner : m = 36524
  · have hb3 : b = 3 := hm' hcorner
    subst hb3 hcorner
    rfl
  · have h1 : (36524 * b + m) / 36524 = b := Nat.div_eq_of_lt_le (by omega) (by omega)
    have h2 : b / 4 = 0 := Nat.div_eq_of_lt (by omega)
    rw [h1, h2]
    rfl

/-- The step `n = d / 365; n -= n >> 2` of `absDate` on day `m` of year `r` of a 4-year
cycle. -/
theorem cut1 (r m : Nat) (hr : r ≤ 3) (hm : m ≤ 365) (hm' : m = 365 → r = 3) :
    (365 * r + m) / 365 - (365 * r + m) / 365 / 4 = r := by
  by_cases hcorner : m = 365
  · have hr3 : r = 3 := hm' hcorner
    subst hr3 hcorner
    rfl
  · have h1 : (365 * r + m) / 365 = r := Nat.div_eq_of_lt_le (by omega) (by omega)
    have h2 : r / 4 = 0 := Nat.div_eq_of_lt (by omega)
    rw [h1, h2]
    rfl

theorem int64_year (k : Nat) (hk : k ≤ 584554049252) :
    int64 (int64 (k : Int) + time.absoluteZeroYear) = (k : Int) - 292277022399 := by
  simp only [int64, time.absoluteZeroYear]
  omega

/-- Reading back the year and the day of the year of the last day of the year
`absoluteZeroYear + 400 a + 100 b + 4 c + r`, which has `L` leap days. -/
theorem absYearDay_lastDay (a b c r L : Nat) (hb : b ≤ 3) (hc : c ≤ 24) (hr : r ≤ 3)
    (hk : 400 * a + 100 * b + 4 * c + r ≤ 584554049252) (hL : L ≤ 1)
    (hL1 : L = 1 → r = 3 ∧ (c ≠ 24 ∨ b = 3)) :
    time.absYearDay ((146097 * a + 36524 * b + 1461 * c + 365 * r + 364 + L) * 86400) =
      (((400 * a + 100 * b + 4 * c + r : Nat) : Int) - 292277022399, 364 + L) := by
  have hsmall : 365 * r + (364 + L) ≤ 1460 := by omega
  have hmid : 1461 * c + (365 * r + (364 + L)) ≤ 36524 := by omega
  have hmid' : 1461 * c + (365 * r + (364 + L)) = 36524 → b = 3 := by omega
  have hbig : 36524 * b + (1461 * c + (365 * r + (364 + L))) ≤ 146096 := by omega
  have hlast : 364 + L = 365 → r = 3 := by omega
  have e0 : (146097 * a + 36524 * b + 1461 * c + 365 * r + 364 + L) * 86400 / 86400 =
      146097 * a + (36524 * b + (1461 * c + (365 * r + (364 + L)))) := by
    rw [Nat.mul_div_cancel _ (by decide : 0 < 86400)]
    simp only [Nat.add_assoc]
  have e1 : (146097 * a + (36524 * b + (1461 * c + (365 * r + (364 + L))))) / 146097 = a :=
    Nat.div_eq_of_lt_le (by clear e0 hmid' hlast; omega) (by clear e0 hmid' hlast; omega)
  have e1' : 146097 * a + (36524 * b + (1461 * c + (365 * r + (364 + L)))) - 146097 * a =
      36524 * b + (1461 * c + (365 * r + (364 + L))) := Nat.add_sub_cancel_left _ _
  have e2 := cut100 b (1461 * c + (365 * r + (364 + L))) hb hmid hmid'
  have e2' : 36524 * b + (1461 * c + (365 * r + (364 + L))) - 36524 * b =
      1461 * c + (365 * r + (364 + L)) := Nat.add_sub_cancel_left _ _
  have e3 : (1461 * c + (365 * r + (364 + L))) / 1461 = c :=
    Nat.div_eq_of_lt_le (by clear e0 e1 e1' e2 e2' hmid' hlast; omega)
      (by clear e0 e1 e1' e2 e2' hmid' hlast; omega)
  have e3' : 1461 * c + (365 * r + (364 + L)) - 1461 * c = 365 * r + (364 + L) :=
    Nat.add_sub_cancel_left _ _
  have e4 := cut1 r (364 + L) hr (by clear e0 e1 e1' e2 e2' e3 e3' hmid' hlast; omega) hlast
  have e4' : 365 * r + (364 + L) - 365 * r = 364 + L := Nat.add_sub_cancel_left _ _
  unfold time.absYearDay
  simp only [e0, e1, e1', e2, e2', e3, e3', e4, e4']
  rw [int64_year _ hk]

theorem uint64_natCast (n : Nat) (h : n < 18446744073709551616) : uint64 (n : Int) = n := by
  unfold uint64
  omega

theorem norm_id (hi lo base : Int) (h0 : 0 ≤ lo) (h1 : lo < base) :
    time.norm hi lo base = (hi, lo) := by
  unfold time.norm
  simp only [not_lt.2 h0, if_false, ge_iff_le, not_le.2 h1]

/-- The second count of December 31, 00:00:00, of a year. -/
theorem dateAbs_lastDay (y : Int) :
    time.dateAbs y 12 31 0 0 0 0 =
      (uint64 ((uint64 ((time.daysSinceEpoch y : Int) + 334 +
        (if time.isLeap y then 1 else 0) + 30) : Int) * 86400), 0) := by
  unfold time.dateAbs
  have h1 : time.norm y (12 - 1) 12 = (y, 11) := norm_id _ _ _ (by decide) (by decide)
  have h2 : time.norm 0 0 1000000000 = (0, 0) := norm_id _ _ _ (by decide) (by decide)
  have h3 : time.norm 0 0 60 = (0, 0) := norm_id _ _ _ (by decide) (by decide)
  have h4 : time.norm 31 0 24 = (31, 0) := norm_id _ _ _ (by decide) (by decide)
  have h5 : time.daysBefore (11 + 1 - 1 : Int).toNat = 334 := by decide
  simp only [h1, h2, h3, h4, h5]
  have h6 : decide ((11 : Int) + 1 ≥ 3) = true := by decide
  have h7 : ((31 : Int) - 1) = 30 := by decide
  have h8 : ((0 : Int) * 3600 + 0 * 60 + 0) = 0 := by decide
  simp only [h6, h7, h8, Bool.and_true, Int.add_zero, Nat.cast_ofNat]

theorem monthDay_lastDay (y : Int) (L : Nat) (hL : L = if time.isLeap y then 1 else 0) :
    time.monthDay y (364 + L) = (12, 31) := by
  unfold time.monthDay
  cases h : time.isLeap y with
  | false =>
    rw [h] at hL
    simp only [Bool.false_eq_true, if_false] at hL
    subst hL
    decide
  | true =>
    rw [h] at hL
    simp only [if_true] at hL
    subst hL
    decide

/-- `time.Date` on December 31, 00:00:00 UTC, of a year within the span of the absolute
second count: the time reads back as that day. -/
theorem Date_lastDay (y : Int) (h1 : time.absoluteZeroYear ≤ y) (h2 : y ≤ time.lastYear) :
    Time.Date y 12 31 0 0 0 0 =
      { year := y, month := 12, day := 31, hour := 0, min := 0, sec := 0, nsec := 0,
        loc := Location.UTC } := by
  unfold time.absoluteZeroYear at h1
  unfold time.lastYear at h2
  obtain ⟨k, hy, hk⟩ : ∃ k : Nat, y = (k : Int) - 292277022399 ∧ k ≤ 584554049252 :=
    ⟨(y + 292277022399).toNat, by omega, by omega⟩
  have hb : k % 400 / 100 ≤ 3 := by omega
  have hc : k % 400 % 100 / 4 ≤ 24 := by omega
  have hr : k % 400 % 100 % 4 ≤ 3 := by omega
  have hsum : 400 * (k / 400) + 100 * (k % 400 / 100) + 4 * (k % 400 % 100 / 4) +
      k % 400 % 100 % 4 = k := by omega
  have hleap := isLeap_eq y k hy
  have hdays := daysSinceEpoch_eq y k hy hk
  generalize k / 400 = a at hsum hdays
  generalize k % 400 / 100 = b at hb hsum hleap hdays
  generalize k % 400 % 100 / 4 = c at hc hsum hleap hdays
  generalize k % 400 % 100 % 4 = r at hr hsum hleap hdays
  obtain ⟨L, hL, hL01, hL1⟩ : ∃ L : Nat, (L = if time.isLeap y then 1 else 0) ∧ L ≤ 1 ∧
      (L = 1 → r = 3 ∧ (c ≠ 24 ∨ b = 3)) := by
    refine ⟨if time.isLeap y then 1 else 0, rfl, ?_, ?_⟩
    · split <;> decide
    · rw [hleap]
      intro h
      split at h
      · rename_i hcond
        simpa using hcond
      · cases h
  have hLint : (if time.isLeap y then (1 : Int) else 0) = (L : Int) := by
    rw [hL]
    split <;> rfl
  have hsmall : 146097 * a + 36524 * b + 1461 * c + 365 * r + 364 + L ≤ 213503982334601 := by
    clear hleap hdays hLint hL
    omega
  have hlt : (146097 * a + 36524 * b + 1461 * c + 365 * r + 364 + L) * 86400 <
      18446744073709551616 := by
    clear hleap hdays hLint hL
    omega
  have habs : time.dateAbs y 12 31 0 0 0 0 =
      ((146097 * a + 36524 * b + 1461 * c + 365 * r + 364 + L) * 86400, 0) := by
    rw [dateAbs_lastDay, hdays, hLint]
    have e1 : ((146097 * a + 36524 * b + 1461 * c + 365 * r : Nat) : Int) + 334 + (L : Int) + 30 =
        ((146097 * a + 36524 * b + 1461 * c + 365 * r + 364 + L : Nat) : Int) := by
      push_cast
      ring
    rw [e1, uint64_natCast _ (by clear hleap hdays hLint hL e1; omega)]
    have e2 : ((146097 * a + 36524 * b + 1461 * c + 365 * r + 364 + L : Nat) : Int) * 86400 =
        (((146097 * a + 36524 * b + 1461 * c + 365 * r + 364 + L) * 86400 : Nat) : Int) := by
      push_cast
      ring
    rw [e2, uint64_natCast _ hlt]
  have hyd := absYearDay_lastDay a b c r L hb hc hr (by rw [hsum]; exact hk) hL01 hL1
  rw [hsum, ← hy] at hyd
  unfold Time.Date
  simp only [habs, absOf_dateExt _ hlt, time.absDate, hyd, monthDay_lastDay y L hL,
    Nat.mul_mod_left, Nat.zero_div, Nat.zero_mod, Int.toNat_zero]

/-! ## Properties of `Fetch` -/

theorem foldl_appendHistory (ds : List Data) (r : Response) :
    ds.foldl appendHistory r = { r with History := r.History ++ ds.map instantOf } := by
  induction ds generalizing r with
  | nil => simp
  | cons d ds ih => simp [ih, appendHistory, instantOf]

/-- What `Fetch` returns once every stage has succeeded. -/
theorem Fetch_ok {σ : Type} (x : xml.Syntax) (w : WorldBank σ) (country : GoString)
    (from_ to_ : Time) (s s1 : σ) (u : url.URL) (resp : http.Response) (bdy : GoString)
    (wr : WorldBankResponse)
    (hu : w.buildURL country from_ to_ = .ok u)
    (hg : w.HTTPClient.Get u.String s = (.ok resp, s1))
    (hr : ioutil.ReadAll resp.Body = (bdy, none))
    (hx : xml.Unmarshal x bdy = .ok wr) :
    w.Fetch x country from_ to_ s =
      ((some { Provider := str "The World Bank", History := wr.Data.map instantOf }, none), s1) := by
  simp [WorldBank.Fetch, hu, hg, hr, hx, foldl_appendHistory, TheWorldBankProvider]

/-- C1, as the code has it: when URL building, the transport call, the body read and the
decode all succeed with an envelope of `N` entries, `Fetch` returns a nil error and a
Response whose Provider is "The World Bank" and whose History has exactly `N`
observations, in the order of the envelope, the `i`-th with the `i`-th raw value (zero
values included) and the date `time.Date(Yi, 12, 31, 0, 0, 0, 0, time.UTC)`, which is
December 31 of the `i`-th year at 00:00:00 UTC whenever that year lies between
-292277022399 and 292277026853, the years whose second count does not wrap. -/
theorem Fetch_history_of_envelope {σ : Type} (x : xml.Syntax) (w : WorldBank σ)
    (country : GoString) (from_ to_ : Time) (s s1 : σ) (u : url.URL) (resp : http.Response)
    (bdy : GoString) (wr : WorldBankResponse)
    (hu : w.buildURL country from_ to_ = .ok u)
    (hg : w.HTTPClient.Get u.String s = (.ok resp, s1))
    (hr : ioutil.ReadAll resp.Body = (bdy, none))
    (hx : xml.Unmarshal x bdy = .ok wr) :
    ∃ r : Response, (w.Fetch x country from_ to_ s).1 = (some r, none) ∧
      r.Provider = str "The World Bank" ∧
      r.History.length = wr.Data.length ∧
      (∀ i (h : i < wr.Data.length), ∃ obs : Instant, r.History[i]? = some obs ∧
        obs.Value = (wr.Data.get ⟨i, h⟩).Value.Value ∧
        obs.Date = Time.Date (wr.Data.get ⟨i, h⟩).Date.Date 12 31 0 0 0 0 ∧
        (-292277022399 ≤ (wr.Data.get ⟨i, h⟩).Date.Date →
          (wr.Data.get ⟨i, h⟩).Date.Date ≤ 292277026853 →
          obs.Date =
            { year := (wr.Data.get ⟨i, h⟩).Date.Date, month := 12, day := 31, hour := 0,
              min := 0, sec := 0, nsec := 0, loc := Location.UTC })) ∧
      r.History = wr.Data.map instantOf := by
  refine ⟨_, by rw [Fetch_ok x w country from_ to_ s s1 u resp bdy wr hu hg hr hx], rfl,
    by simp, ?_, rfl⟩
  intro i h
  refine ⟨instantOf (wr.Data.get ⟨i, h⟩), ?_, rfl, rfl, ?_⟩
  · simp [List.getElem?_map, List.getElem?_eq_getElem h]
  · intro h1 h2
    exact Date_lastDay _ h1 h2

/-- The scenario of the specification: Italy, 2010 to 2012, three entries. -/
theorem Fetch_history_of_envelope_witness :
    (italyBank.Fetch italySyntax (str "it") (newYear 2010) (newYear 2012) []).1 =
      (some { Provider := str "The World Bank",
              History := [⟨⟨2010, 12, 31, 0, 0, 0, 0, Location.UTC⟩, 59190143⟩,
                          ⟨⟨2011, 12, 31, 0, 0, 0, 0, Location.UTC⟩, 59364690⟩,
                          ⟨⟨2012, 12, 31, 0, 0, 0, 0, Location.UTC⟩, 59539717⟩] }, none) := by
  obtain ⟨r, h, hp, -, -, hm⟩ := Fetch_history_of_envelope italySyntax italyBank (str "it")
    (newYear 2010) (newYear 2012) [] _ (italyURL "2010" "2012")
    (httpResponse 200 (str "<wb:data/>")) _ italyEnvelope (by decide) rfl rfl (by decide)
  rw [h]
  cases r
  simp only at hp hm
  subst hp hm
  decide

/-- C1 fails as stated: the decode accepts the year 1000000000000, all stages succeed, and
the date of the observation, `time.Date(1000000000000, 12, 31, 0, 0, 0, 0, time.UTC)`, is
not December 31 of that year: its second count has wrapped, and no `time.Time` has that
year. -/
theorem Fetch_history_far_year :
    (unmarshalRoot farYearDoc).map (fun wr => wr.Data.map yearValue) =
        .ok [(1000000000000, 7)] ∧
      (italyBank.Fetch (fun _ => .ok farYearDoc) (str "it") (newYear 2010) (newYear 2012)
          []).1 =
        (some { Provider := str "The World Bank",
                History := [⟨Time.Date 1000000000000 12 31 0 0 0 0, 7⟩] }, none) ∧
      Time.Date 1000000000000 12 31 0 0 0 0 ≠
        { year := 1000000000000, month := 12, day := 31, hour := 0, min := 0, sec := 0,
          nsec := 0, loc := Location.UTC } ∧
      (Time.Date 1000000000000 12 31 0 0 0 0).year ≠ 1000000000000 := by
  decide

/-- C2: whichever stage of `Fetch` fails (`buildURL`, the transport `Get`, reading the body,
the XML decode) with error `e`, `Fetch` returns a nil Response together with exactly `e`;
and `Fetch` never returns a non-nil Response together with a non-nil error. -/
theorem Fetch_error_unchanged {σ : Type} (x : xml.Syntax) (w : WorldBank σ)
    (country : GoString) (from_ to_ : Time) (s : σ) :
    (∀ e, w.buildURL country from_ to_ = .error e →
      w.Fetch x country from_ to_ s = ((none, some e), s)) ∧
    (∀ u e s1, w.buildURL country from_ to_ = .ok u →
      w.HTTPClient.Get u.String s = (.error e, s1) →
      w.Fetch x country from_ to_ s = ((none, some e), s1)) ∧
    (∀ u resp s1 part e, w.buildURL country from_ to_ = .ok u →
      w.HTTPClient.Get u.String s = (.ok resp, s1) →
      ioutil.ReadAll resp.Body = (part, some e) →
      w.Fetch x country from_ to_ s = ((none, some e), s1)) ∧
    (∀ u resp s1 bdy e, w.buildURL country from_ to_ = .ok u →
      w.HTTPClient.Get u.String s = (.ok resp, s1) →
      ioutil.ReadAll resp.Body = (bdy, none) →
      xml.Unmarshal x bdy = .error e →
      w.Fetch x country from_ to_ s = ((none, some e), s1)) ∧
    (∀ r e, (w.Fetch x country from_ to_ s).1 ≠ (some r, some e)) := by
  refine ⟨?_, ?_, ?_, ?_, ?_⟩
  · intro e hu
    simp [WorldBank.Fetch, hu]
  · intro u e s1 hu hg
    simp [WorldBank.Fetch, hu, hg]
  · intro u resp s1 part e hu hg hr
    simp [WorldBank.Fetch, hu, hg, hr]
  · intro u resp s1 bdy e hu hg hr hx
    simp [WorldBank.Fetch, hu, hg, hr, hx]
  · intro r e
    unfold WorldBank.Fetch
    split
    · simp
    · split
      · simp
      · split
        · simp
        · split <;> simp

/-- The statement exercised on a country with an invalid escape, on a failing transport
and on a body that does not parse. -/
theorem Fetch_error_unchanged_witness :
    italyBank.Fetch italySyntax (str "%zz") (newYear 1960) (newYear 2018) [] =
        ((none, some (Error.urlError "parse"
          (str "http://api.worldbank.org/v2/countries/%zz/indicators/SP.POP.TOTL")
          (Error.EscapeError (str "%zz")))), []) ∧
      (failingBank (Error.external 7)).Fetch italySyntax (str "it") (newYear 1960)
          (newYear 2018) [] =
        ((none, some (Error.external 7)),
         [str "http://api.worldbank.org/v2/countries/it/indicators/SP.POP.TOTL?date=1960%3A2018"]) ∧
      italyBank.Fetch (fun _ => .error (Error.external 9)) (str "it") (newYear 1960)
          (newYear 2018) [] =
        ((none, some (Error.external 9)),
         [str "http://api.worldbank.org/v2/countries/it/indicators/SP.POP.TOTL?date=1960%3A2018"]) :=
  ⟨(Fetch_error_unchanged italySyntax italyBank (str "%zz") (newYear 1960) (newYear 2018)
      []).1 _ (by decide),
   (Fetch_error_unchanged italySyntax (failingBank (Error.external 7)) (str "it")
      (newYear 1960) (newYear 2018) []).2.1 (italyURL "1960" "2018") _ _ (by decide)
      (by decide),
   (Fetch_error_unchanged (fun _ => .error (Error.external 9)) italyBank (str "it")
      (newYear 1960) (newYear 2018) []).2.2.2.1 (italyURL "1960" "2018")
      (httpResponse 200 (str "<wb:data/>")) _ (str "<wb:data/>") _ (by decide) (by decide)
      rfl rfl⟩

/-- C5, as the code has it: an invocation of `Fetch` performs exactly one transport call
(`HTTPClient.Get`) when `buildURL` succeeds, whether or not a later stage fails, and no
transport call when `buildURL` fails; so never more than one. -/
theorem Fetch_transport_calls {σ : Type} (x : xml.Syntax) (w : WorldBank σ)
    (country : GoString) (from_ to_ : Time) (s : σ) (n : Nat) :
    (w.counting.Fetch x country from_ to_ (s, n)).2.2 =
        (match w.buildURL country from_ to_ with
         | .ok _ => n + 1
         | .error _ => n) ∧
      (w.counting.Fetch x country from_ to_ (s, n)).2.2 ≤ n + 1 := by
  have hb : w.counting.buildURL country from_ to_ = w.buildURL country from_ to_ := rfl
  unfold WorldBank.Fetch
  rw [hb]
  cases hu : w.buildURL country from_ to_ with
  | error e => simp
  | ok u =>
    simp only [WorldBank.counting, http.Client.counting]
    cases hg : (w.HTTPClient.Get u.String s).1 with
    | error e => simp
    | ok resp =>
      simp only
      split
      · simp
      · split <;> simp

/-- C5 fails as stated: for the country `%zz` the URL cannot be built and `Fetch` returns
its error without any transport call. -/
theorem Fetch_transport_calls_zero :
    (italyBank.counting.Fetch italySyntax (str "%zz") (newYear 1960) (newYear 2018)
        ([], 0)).2.2 = 0 ∧
      ¬ (italyBank.counting.Fetch italySyntax (str "%zz") (newYear 1960) (newYear 2018)
        ([], 0)).2.2 = 1 := by
  decide

theorem map_instantOf_congr (ds1 ds2 : List Data)
    (h : ds1.map yearValue = ds2.map yearValue) : ds1.map instantOf = ds2.map instantOf := by
  have key : ∀ ds : List Data, ds.map instantOf =
      (ds.map yearValue).map fun p => (⟨Time.Date p.1 12 31 0 0 0 0, p.2⟩ : Instant) := by
    intro ds
    simp [instantOf, yearValue, Function.comp_def]
  rw [key, key, h]

/-- C6: the Response depends only on the raw year and raw value of each entry: two
successful fetches whose decoded envelopes have the same number of entries and agree
entry by entry on `Date` and `Value` return equal Responses, whatever the indicator,
country, ISO3 code, unit, observation status, decimal precision and paging attributes. -/
theorem Fetch_only_year_and_value {σ τ : Type} (x1 x2 : xml.Syntax) (w1 : WorldBank σ)
    (w2 : WorldBank τ) (c1 c2 : GoString) (f1 t1 f2 t2 : Time) (s1 s1' : σ) (s2 s2' : τ)
    (u1 u2 : url.URL) (resp1 resp2 : http.Response) (bdy1 bdy2 : GoString)
    (wr1 wr2 : WorldBankResponse)
    (hu1 : w1.buildURL c1 f1 t1 = .ok u1) (hu2 : w2.buildURL c2 f2 t2 = .ok u2)
    (hg1 : w1.HTTPClient.Get u1.String s1 = (.ok resp1, s1'))
    (hg2 : w2.HTTPClient.Get u2.String s2 = (.ok resp2, s2'))
    (hr1 : ioutil.ReadAll resp1.Body = (bdy1, none))
    (hr2 : ioutil.ReadAll resp2.Body = (bdy2, none))
    (hx1 : xml.Unmarshal x1 bdy1 = .ok wr1) (hx2 : xml.Unmarshal x2 bdy2 = .ok wr2)
    (hlen : wr1.Data.length = wr2.Data.length)
    (hagree : ∀ i (h1 : i < wr1.Data.length) (h2 : i < wr2.Data.length),
      (wr1.Data.get ⟨i, h1⟩).Date.Date = (wr2.Data.get ⟨i, h2⟩).Date.Date ∧
      (wr1.Data.get ⟨i, h1⟩).Value.Value = (wr2.Data.get ⟨i, h2⟩).Value.Value) :
    (w1.Fetch x1 c1 f1 t1 s1).1 = (w2.Fetch x2 c2 f2 t2 s2).1 := by
  rw [Fetch_ok x1 w1 c1 f1 t1 s1 s1' u1 resp1 bdy1 wr1 hu1 hg1 hr1 hx1,
    Fetch_ok x2 w2 c2 f2 t2 s2 s2' u2 resp2 bdy2 wr2 hu2 hg2 hr2 hx2]
  have hmap : wr1.Data.map yearValue = wr2.Data.map yearValue := by
    apply List.ext_getElem (by simpa using hlen)
    intro i h1 h2
    simp only [List.length_map] at h1 h2
    have := hagree i h1 h2
    simp only [List.get_eq_getElem] at this
    simp [yearValue, this.1, this.2]
  rw [map_instantOf_congr _ _ hmap]

/-- The statement exercised on the example document and its variant: the envelopes differ,
the results of `Fetch` do not. -/
theorem Fetch_only_year_and_value_witness :
    italyEnvelope ≠ italyVariantEnvelope ∧
      (italyBank.Fetch italySyntax (str "it") (newYear 2010) (newYear 2012) []).1 =
        (italyBank.Fetch (fun _ => .ok italyVariantDoc) (str "it") (newYear 2010)
          (newYear 2012) []).1 :=
  ⟨by decide,
   Fetch_only_year_and_value italySyntax (fun _ => .ok italyVariantDoc) italyBank italyBank
     _ _ _ _ _ _ [] _ [] _ (italyURL "2010" "2012") (italyURL "2010" "2012")
     (httpResponse 200 (str "<wb:data/>")) (httpResponse 200 (str "<wb:data/>")) _ _
     italyEnvelope italyVariantEnvelope
     (by decide) (by decide) rfl rfl rfl rfl (by decide) (by decide) (by decide) (by decide)⟩


namespace url
open encoding

theorem cut_append_left (sep : UInt8) (a b : GoString) (h : sep ∉ a) :
    cut sep (a ++ b) = (a ++ (cut sep b).1, (cut sep b).2) := by
  induction a with
  | nil => simp
  | cons c a ih =>
    have hc : c ≠ sep := fun e => h (by simp [e])
    have ha : sep ∉ a := fun e => h (by simp [e])
    simp [cut, hc, ih ha]

theorem cutKeep_append_sep (sep : UInt8) (a b : GoString) (h : sep ∉ a) :
    cutKeep sep (a ++ sep :: b) = (a, sep :: b) := by
  induction a with
  | nil => simp [cutKeep]
  | cons c a ih =>
    have hc : c ≠ sep := fun e => h (by simp [e])
    have ha : sep ∉ a := fun e => h (by simp [e])
    simp [cutKeep, hc, ih ha]

theorem getSchemeLoop_letters (raw pre rest acc : GoString)
    (hpre : ∀ c ∈ pre, ((ch 'a' ≤ c && c ≤ ch 'z') || (ch 'A' ≤ c && c ≤ ch 'Z')) = true) :
    getSchemeLoop raw false acc (pre ++ ch ':' :: rest) = .ok (acc ++ pre, rest) := by
  induction pre generalizing acc with
  | nil =>
    have h1 : ((ch 'a' ≤ ch ':' && ch ':' ≤ ch 'z') || (ch 'A' ≤ ch ':' && ch ':' ≤ ch 'Z')) = false := by
      decide
    have h2 : ((ch '0' ≤ ch ':' && ch ':' ≤ ch '9') || ch ':' = ch '+' || ch ':' = ch '-' ||
        ch ':' = ch '.') = false := by decide
    simp only [List.nil_append, getSchemeLoop, h1, h2]
    simp
  | cons c pre ih =>
    have hc := hpre c (by simp)
    rw [List.cons_append, getSchemeLoop]
    simp only [hc, if_true]
    rw [ih _ (fun d hd => hpre d (List.mem_cons_of_mem _ hd))]
    simp

theorem getScheme_http (rest : GoString) :
    getScheme (str "http:" ++ rest) = .ok (str "http", rest) := by
  have e : str "http:" = ch 'h' :: (str "ttp" ++ [ch ':']) := by decide
  have e' : str "http" = ch 'h' :: str "ttp" := by decide
  have hh : ((ch 'a' ≤ ch 'h' && ch 'h' ≤ ch 'z') || (ch 'A' ≤ ch 'h' && ch 'h' ≤ ch 'Z')) = true := by
    decide
  rw [getScheme]
  conv_lhs => arg 4; rw [e, List.cons_append, List.append_assoc, List.singleton_append]
  rw [getSchemeLoop]
  simp only [hh, if_true]
  rw [getSchemeLoop_letters _ _ _ _ (by decide)]
  simp [e']

theorem splitQuery_append_left (a b : GoString) (ha : ch '?' ∉ a) :
    splitQuery (a ++ b) = (a ++ (splitQuery b).1, (splitQuery b).2.1, (splitQuery b).2.2) := by
  have hcount : List.count (ch '?') (a ++ b) = List.count (ch '?') b := by
    rw [List.count_append, List.count_eq_zero.2 ha, Nat.zero_add]
  rcases List.eq_nil_or_concat b with rfl | ⟨b', x, rfl⟩
  · have h0 : List.count (ch '?') a = 0 := List.count_eq_zero.2 ha
    simp [splitQuery, cut_of_not_mem _ _ ha, h0, cut]
  · rw [List.concat_eq_append] at hcount ⊢
    have hlast : (a ++ (b' ++ [x])).getLast? = (b' ++ [x]).getLast? := by
      rw [← List.append_assoc]
      simp
    have hdrop : (a ++ (b' ++ [x])).dropLast = a ++ (b' ++ [x]).dropLast := by
      rw [← List.append_assoc]
      simp
    unfold splitQuery
    rw [hcount, hlast, hdrop, cut_append_left _ _ _ ha]
    split <;> rfl

theorem parseHier_worldbank (url : URL) (hs : url.Scheme = str "http") (tail : GoString) :
    parseHier url (str "//api.worldbank.org/" ++ tail) false =
      URL.setPath { url with User := none, Host := str "api.worldbank.org" } (ch '/' :: tail) := by
  have e : str "//api.worldbank.org/" ++ tail =
      ch '/' :: ch '/' :: (str "api.worldbank.org" ++ ch '/' :: tail) := by
    have : str "//api.worldbank.org/" = ch '/' :: ch '/' :: (str "api.worldbank.org" ++ [ch '/']) := by
      decide
    rw [this]
    simp
  have hpre : (str "//").isPrefixOf
      (ch '/' :: ch '/' :: (str "api.worldbank.org" ++ ch '/' :: tail)) = true := by
    have e : str "//" = [ch '/', ch '/'] := by decide
    rw [e]
    simp [List.isPrefixOf]
  have hauth : parseAuthority (str "api.worldbank.org") = .ok (none, str "api.worldbank.org") := by
    decide
  have hne : str "http" ≠ [] := by decide
  rw [e]
  unfold parseHier
  rw [hpre]
  simp only [List.head?_cons, List.drop_succ_cons, List.drop_zero,
    cutKeep_append_sep _ _ _ (show ch '/' ∉ str "api.worldbank.org" by decide), hauth, hs]
  simp [hne]

/-- The string `buildURL` hands to `url.Parse`, without its country. -/
theorem parse_worldbank (y : GoString) :
    parse (str "http://api.worldbank.org/v2/countries/" ++ y) false =
      if stringContainsCTLByte (str "http://api.worldbank.org/v2/countries/" ++ y) then
        .error (.errorString "net/url: invalid control character in URL")
      else
        URL.setPath
          { Scheme := str "http", Host := str "api.worldbank.org",
            ForceQuery := (splitQuery y).2.1, RawQuery := (splitQuery y).2.2 }
          (str "/v2/countries/" ++ (splitQuery y).1) := by
  have e1 : str "http://api.worldbank.org/v2/countries/" ++ y =
      str "http:" ++ (str "//api.worldbank.org/v2/countries/" ++ y) := by
    have : str "http://api.worldbank.org/v2/countries/" =
      str "http:" ++ str "//api.worldbank.org/v2/countries/" := by decide
    rw [this, List.append_assoc]
  have hstar : str "http:" ++ (str "//api.worldbank.org/v2/countries/" ++ y) ≠ str "*" := by
    have e : str "http:" = ch 'h' :: ch 't' :: str "tp:" := by decide
    have e' : str "*" = [ch '*'] := by decide
    rw [e, e']
    simp
  have hq : ch '?' ∉ str "//api.worldbank.org/v2/countries/" := by decide
  have e2 : ∀ z : GoString, str "//api.worldbank.org/v2/countries/" ++ z =
      str "//api.worldbank.org/" ++ (str "v2/countries/" ++ z) := by
    intro z
    have : str "//api.worldbank.org/v2/countries/" =
      str "//api.worldbank.org/" ++ str "v2/countries/" := by decide
    rw [this, List.append_assoc]
  have e3 : ∀ z : GoString, ch '/' :: (str "v2/countries/" ++ z) = str "/v2/countries/" ++ z := by
    intro z
    have : str "/v2/countries/" = ch '/' :: str "v2/countries/" := by decide
    rw [this]
    simp
  have hlow : toLower (str "http") = str "http" := by decide
  rw [e1, parse]
  by_cases hctl : stringContainsCTLByte (str "http:" ++
      (str "//api.worldbank.org/v2/countries/" ++ y)) = true
  · simp [hctl]
  · simp only [hctl, hstar, getScheme_http, splitQuery_append_left _ _ hq, hlow, if_false]
    rw [e2 (splitQuery y).1, parseHier_worldbank
      { Scheme := str "http", ForceQuery := (splitQuery y).2.1, RawQuery := (splitQuery y).2.2 }
      rfl, e3]
    simp

theorem unescapeCheck_path_of_no_pct (s : GoString) (h : ch '%' ∉ s) :
    unescapeCheck encodePath s = none := by
  induction s with
  | nil => simp [unescapeCheck]
  | cons c s ih =>
    have hc : c ≠ ch '%' := fun e => h (by simp [e])
    rw [unescapeCheck_plain _ _ _ hc (by decide) (by decide)]
    exact ih (fun e => h (by simp [e]))

theorem unescapeRewrite_path_of_no_pct (s : GoString) (h : ch '%' ∉ s) :
    unescapeRewrite encodePath s = s := by
  induction s with
  | nil => simp [unescapeRewrite]
  | cons c s ih =>
    have hc : c ≠ ch '%' := fun e => h (by simp [e])
    rw [unescapeRewrite_plain _ _ _ hc, ih (fun e => h (by simp [e]))]
    simp

theorem unescape_path_of_no_pct (s : GoString) (h : ch '%' ∉ s) :
    unescape s encodePath = .ok s := by
  simp [unescape, unescapeCheck_path_of_no_pct s h, unescapeRewrite_path_of_no_pct s h]

theorem splitQuery_of_not_mem (s : GoString) (h : ch '?' ∉ s) : splitQuery s = (s, false, []) := by
  simp [splitQuery, List.count_eq_zero.2 h, cut_of_not_mem _ _ h]

/-- `url.Parse` on the string `buildURL` formats. -/
theorem Parse_worldbank (y : GoString) :
    Parse (str "http://api.worldbank.org/v2/countries/" ++ y) =
      match parse (str "http://api.worldbank.org/v2/countries/" ++ (cut (ch '#') y).1) false with
      | .error err =>
        .error (.urlError "parse"
          (str "http://api.worldbank.org/v2/countries/" ++ (cut (ch '#') y).1) err)
      | .ok url =>
        if (cut (ch '#') y).2 = [] then .ok url
        else
          match url.setFragment (cut (ch '#') y).2 with
          | .error err =>
            .error (.urlError "parse" (str "http://api.worldbank.org/v2/countries/" ++ y) err)
          | .ok url => .ok url := by
  rw [Parse, cut_append_left _ _ _ (show ch '#' ∉ str "http://api.worldbank.org/v2/countries/" by
    decide)]

/-- `url.Parse` on the string `buildURL` formats, when it holds no `?`, `#`, `%` after the
fixed prefix and no control byte. -/
theorem Parse_worldbank_plain (y : GoString) (hq : ch '?' ∉ y) (hf : ch '#' ∉ y)
    (hp : ch '%' ∉ y)
    (hctl : stringContainsCTLByte (str "http://api.worldbank.org/v2/countries/" ++ y) = false) :
    Parse (str "http://api.worldbank.org/v2/countries/" ++ y) =
      .ok { Scheme := str "http", Host := str "api.worldbank.org",
            Path := str "/v2/countries/" ++ y,
            RawPath := if str "/v2/countries/" ++ y =
                escape (str "/v2/countries/" ++ y) encodePath then []
              else str "/v2/countries/" ++ y } := by
  have hp' : ch '%' ∉ str "/v2/countries/" ++ y := by
    intro hb
    rcases List.mem_append.1 hb with hb | hb
    · exact absurd hb (by decide)
    · exact hp hb
  rw [Parse_worldbank, cut_of_not_mem _ _ hf, parse_worldbank, hctl, splitQuery_of_not_mem _ hq]
  simp [URL.setPath, unescape_path_of_no_pct _ hp']

theorem stringContainsCTLByte_append (a b : GoString) :
    stringContainsCTLByte (a ++ b) = (stringContainsCTLByte a || stringContainsCTLByte b) := by
  simp [stringContainsCTLByte]

end url

theorem not_mem_country_suffix (c : UInt8) (country : GoString) (h : c ∉ country)
    (hs : c ∉ str "/indicators/SP.POP.TOTL") : c ∉ country ++ str "/indicators/SP.POP.TOTL" := by
  intro hb
  rcases List.mem_append.1 hb with hb | hb
  · exact h hb
  · exact hs hb

/-- `buildURL` on a country free of `?`, `#`, `%` and of control bytes. -/
theorem buildURL_plain {σ : Type} (w : WorldBank σ) (country : GoString) (from_ to_ : Time)
    (hq : ch '?' ∉ country) (hf : ch '#' ∉ country) (hp : ch '%' ∉ country) :
    w.buildURL country from_ to_ =
      if url.stringContainsCTLByte country then
        .error (.urlError "parse"
          (str "http://api.worldbank.org/v2/countries/" ++ country ++
            str "/indicators/SP.POP.TOTL")
          (.errorString "net/url: invalid control character in URL"))
      else
        .ok { Scheme := str "http", Host := str "api.worldbank.org",
              Path := str "/v2/countries/" ++ country ++ str "/indicators/SP.POP.TOTL",
              RawPath :=
                if str "/v2/countries/" ++ (country ++ str "/indicators/SP.POP.TOTL") =
                    url.escape (str "/v2/countries/" ++ (country ++ str "/indicators/SP.POP.TOTL"))
                      url.encoding.encodePath then []
                else str "/v2/countries/" ++ (country ++ str "/indicators/SP.POP.TOTL"),
              RawQuery := str "date=" ++
                url.QueryEscape (fmtInt from_.Year ++ ch ':' :: fmtInt to_.Year) } := by
  have hq' := not_mem_country_suffix _ country hq (by decide)
  have hf' := not_mem_country_suffix _ country hf (by decide)
  have hp' := not_mem_country_suffix _ country hp (by decide)
  have hc : url.stringContainsCTLByte (str "http://api.worldbank.org/v2/countries/" ++
      (country ++ str "/indicators/SP.POP.TOTL")) = url.stringContainsCTLByte country := by
    rw [url.stringContainsCTLByte_append, url.stringContainsCTLByte_append]
    have h1 : url.stringContainsCTLByte (str "http://api.worldbank.org/v2/countries/") = false := by
      decide
    have h2 : url.stringContainsCTLByte (str "/indicators/SP.POP.TOTL") = false := by decide
    simp [h1, h2]
  unfold WorldBank.buildURL
  rw [List.append_assoc]
  by_cases hctl : url.stringContainsCTLByte country = true
  · rw [url.Parse_worldbank, url.cut_of_not_mem _ _ hf', url.parse_worldbank, hc, hctl]
    simp
  · rw [Bool.not_eq_true] at hctl
    rw [url.Parse_worldbank_plain _ hq' hf' hp' (hc.trans hctl), hctl]
    have e : url.QueryEscape (str "date") = str "date" := by decide
    have e' : str "date=" = str "date" ++ [ch '='] := by decide
    simp [url.URL.Query, url.parseQueryLoop, url.parseQueryStep, url.Values.Add,
      url.Values.lookup, url.Values.store, url.Values.Encode, url.sortKeys, url.insertKey,
      url.joinAmp, e, e']

/-- C4, as the code has it: for every country string that holds none of the bytes `?`, `#`
and `%` and for which `buildURL` succeeds, the path of the returned URL is
`/v2/countries/<country>/indicators/SP.POP.TOTL` with the country embedded unchanged, the
host is `api.worldbank.org`, the fragment is empty and the query holds the `date`
parameter only. -/
theorem buildURL_path_verbatim {σ : Type} (w : WorldBank σ) (country : GoString)
    (from_ to_ : Time) (u : url.URL)
    (hq : ch '?' ∉ country) (hf : ch '#' ∉ country) (hp : ch '%' ∉ country)
    (h : w.buildURL country from_ to_ = .ok u) :
    u.Path = str "/v2/countries/" ++ country ++ str "/indicators/SP.POP.TOTL" ∧
      u.Host = str "api.worldbank.org" ∧ u.Fragment = [] ∧
      u.RawQuery = str "date=" ++
        url.QueryEscape (fmtInt from_.Year ++ ch ':' :: fmtInt to_.Year) := by
  rw [buildURL_plain w country from_ to_ hq hf hp] at h
  split at h
  · cases h
  · simp only [Except.ok.injEq] at h
    subst h
    exact ⟨rfl, rfl, rfl, rfl⟩

/-- The statement exercised on the country `it`. -/
theorem buildURL_path_verbatim_witness :
    (italyURL "1960" "2018").Path = str "/v2/countries/" ++ str "it" ++
        str "/indicators/SP.POP.TOTL" ∧
      (italyURL "1960" "2018").Host = str "api.worldbank.org" ∧
      (italyURL "1960" "2018").Fragment = [] ∧
      (italyURL "1960" "2018").RawQuery = str "date=" ++
        url.QueryEscape (fmtInt (newYear 1960).Year ++ ch ':' :: fmtInt (newYear 2018).Year) :=
  buildURL_path_verbatim italyBank (str "it") (newYear 1960) (newYear 2018)
    (italyURL "1960" "2018") (by decide) (by decide) (by decide) (by decide)

/-- C4 fails as stated: with a `?` in the country the URL is built, but its path stops
before the `?` and the rest of the country lands in the query; with a `#` the rest lands in
the fragment; a `%41` in the country is a different byte in the path. -/
theorem buildURL_path_not_verbatim :
    (italyBank.buildURL (str "it?x=1") (newYear 1960) (newYear 2018) =
        .ok { Scheme := str "http", Host := str "api.worldbank.org",
              Path := str "/v2/countries/it",
              RawQuery := str "date=1960%3A2018&x=1%2Findicators%2FSP.POP.TOTL" } ∧
      str "/v2/countries/it" ≠ str "/v2/countries/it?x=1/indicators/SP.POP.TOTL") ∧
    (italyBank.buildURL (str "it#x") (newYear 1960) (newYear 2018) =
        .ok { Scheme := str "http", Host := str "api.worldbank.org",
              Path := str "/v2/countries/it", RawQuery := str "date=1960%3A2018",
              Fragment := str "x/indicators/SP.POP.TOTL" } ∧
      str "/v2/countries/it" ≠ str "/v2/countries/it#x/indicators/SP.POP.TOTL") ∧
    (italyBank.buildURL (str "%41") (newYear 1960) (newYear 2018) =
        .ok { Scheme := str "http", Host := str "api.worldbank.org",
              Path := str "/v2/countries/A/indicators/SP.POP.TOTL",
              RawPath := str "/v2/countries/%41/indicators/SP.POP.TOTL",
              RawQuery := str "date=1960%3A2018" } ∧
      str "/v2/countries/A/indicators/SP.POP.TOTL" ≠
        str "/v2/countries/%41/indicators/SP.POP.TOTL") := by
  decide

namespace url
open encoding

theorem unescapeCheck_modelled (mode : encoding) (n : Nat) :
    ∀ (s : GoString) (e : Error), s.length ≤ n → unescapeCheck mode s = some e →
      e.modelled = true := by
  induction n with
  | zero =>
    intro s e hl h
    have : s = [] := List.length_eq_zero.1 (Nat.le_zero.1 hl)
    subst this
    simp [unescapeCheck] at h
  | succ n ih =>
    intro s e hl h
    rw [unescapeCheck.eq_def] at h
    split at h
    · cases h
    · rename_i c s
      simp only [List.length_cons] at hl
      split at h
      · split at h
        · rename_i a b t
          simp only [List.length_cons] at hl
          split at h
          · cases h; rfl
          · split at h
            · cases h; rfl
            · split at h
              · cases h; rfl
              · exact ih t e (by omega) h
        · cases h; rfl
      · split at h
        · exact ih s e (by omega) h
        · split at h
          · cases h; rfl
          · exact ih s e (by omega) h

theorem unescape_modelled (s : GoString) (mode : encoding) (e : Error)
    (h : unescape s mode = .error e) : e.modelled = true := by
  unfold unescape at h
  split at h
  · rename_i e' he
    cases h
    exact unescapeCheck_modelled mode s.length s _ (Nat.le_refl _) he
  · cases h

theorem setPath_modelled (u : URL) (p : GoString) (e : Error)
    (h : u.setPath p = .error e) : e.modelled = true := by
  unfold URL.setPath at h
  split at h
  · rename_i err he
    cases h
    exact unescape_modelled _ _ _ he
  · cases h

theorem setFragment_modelled (u : URL) (p : GoString) (e : Error)
    (h : u.setFragment p = .error e) : e.modelled = true := by
  unfold URL.setFragment at h
  split at h
  · rename_i err he
    cases h
    exact unescape_modelled _ _ _ he
  · cases h

end url

/-- The branch of `parseHost` left out of the model (IP-literal hosts) is never reached by
`buildURL`: the authority is always `api.worldbank.org`. -/
theorem buildURL_modelled {σ : Type} (w : WorldBank σ) (country : GoString) (from_ to_ : Time)
    (e : Error) (h : w.buildURL country from_ to_ = .error e) : e.modelled = true := by
  unfold WorldBank.buildURL at h
  rw [List.append_assoc, url.Parse_worldbank, url.parse_worldbank] at h
  split at h
  · rename_i err hp
    split at hp
    · rename_i err' hp'
      cases hp
      cases h
      split at hp'
      · cases hp'; rfl
      · exact url.setPath_modelled _ _ err' hp'
    · split at hp
      · cases hp
      · split at hp
        · rename_i err' hf
          cases hp
          cases h
          exact url.setFragment_modelled _ _ err' hf
        · cases hp
  · cases h


/-- C7: against a deterministic stub transport (the answer to `Get` is a fixed function of
the URL string, whatever the state of the outside world) `Fetch` is deterministic: calls
with identical inputs return equal results field for field (same Response, so same
Provider and same History, and same error), in whatever states they are made, and in
particular when the second call follows the first. -/
theorem Fetch_deterministic {σ : Type} (x : xml.Syntax) (w : WorldBank σ)
    (answer : GoString → Except Error http.Response)
    (hstub : ∀ u s, (w.HTTPClient.Get u s).1 = answer u)
    (country : GoString) (from_ to_ : Time) (s s' : σ) :
    (w.Fetch x country from_ to_ s).1 = (w.Fetch x country from_ to_ s').1 ∧
      (w.Fetch x country from_ to_ (w.Fetch x country from_ to_ s).2).1 =
        (w.Fetch x country from_ to_ s).1 := by
  have key : ∀ t t' : σ, (w.Fetch x country from_ to_ t).1 = (w.Fetch x country from_ to_ t').1 := by
    intro t t'
    unfold WorldBank.Fetch
    cases hu : w.buildURL country from_ to_ with
    | error e => rfl
    | ok u =>
      have h1 := hstub u.String t
      have h2 := hstub u.String t'
      simp only
      rcases hg : w.HTTPClient.Get u.String t with ⟨r1, t1⟩
      rcases hg' : w.HTTPClient.Get u.String t' with ⟨r2, t2⟩
      rw [hg] at h1
      rw [hg'] at h2
      simp only at h1 h2
      subst h1 h2
      cases hans : answer u.String with
      | error e => rfl
      | ok resp =>
        simp only
        split
        · rfl
        · split <;> rfl
  exact ⟨key s s', key _ _⟩

/-- The statement exercised on a stub that logs its calls: the first call changes the
state, the result of the second is the same. -/
theorem Fetch_deterministic_witness :
    (italyBank.Fetch italySyntax (str "it") (newYear 2010) (newYear 2012) []).2 ≠ [] ∧
      (italyBank.Fetch italySyntax (str "it") (newYear 2010) (newYear 2012) []).1 =
        (italyBank.Fetch italySyntax (str "it") (newYear 2010) (newYear 2012)
          [str "an earlier call"]).1 ∧
      (italyBank.Fetch italySyntax (str "it") (newYear 2010) (newYear 2012)
          (italyBank.Fetch italySyntax (str "it") (newYear 2010) (newYear 2012) []).2).1 =
        (italyBank.Fetch italySyntax (str "it") (newYear 2010) (newYear 2012) []).1 :=
  ⟨by decide,
   Fetch_deterministic italySyntax italyBank (fun _ => .ok (httpResponse 200 (str "<wb:data/>")))
     (fun _ _ => rfl) (str "it") (newYear 2010) (newYear 2012) [] [str "an earlier call"]⟩

/-- C10: `Fetch` never inspects the HTTP status: two transport responses with the same body
and no transport error give the same result whatever their status codes (and other
fields); so a response of any status, such as 500, whose body decodes is returned as a
Response with a nil error. -/
theorem Fetch_ignores_status {σ τ : Type} (x : xml.Syntax) (w1 : WorldBank σ)
    (w2 : WorldBank τ) (country : GoString) (from_ to_ : Time) (s1 s1' : σ) (s2 s2' : τ)
    (u : url.URL) (resp1 resp2 : http.Response)
    (hu : w1.buildURL country from_ to_ = .ok u)
    (hg1 : w1.HTTPClient.Get u.String s1 = (.ok resp1, s1'))
    (hg2 : w2.HTTPClient.Get u.String s2 = (.ok resp2, s2'))
    (hbody : resp1.Body = resp2.Body) :
    (w1.Fetch x country from_ to_ s1).1 = (w2.Fetch x country from_ to_ s2).1 ∧
      ∀ bdy wr, ioutil.ReadAll resp1.Body = (bdy, none) → xml.Unmarshal x bdy = .ok wr →
        (w1.Fetch x country from_ to_ s1).1 =
          (some { Provider := str "The World Bank", History := wr.Data.map instantOf }, none) := by
  have hu2 : w2.buildURL country from_ to_ = .ok u := hu
  refine ⟨?_, ?_⟩
  · unfold WorldBank.Fetch
    rw [hu, hu2]
    simp only [hg1, hg2, hbody]
    split
    · rfl
    · split <;> rfl
  · intro bdy wr hr hx
    rw [Fetch_ok x w1 country from_ to_ s1 s1' u resp1 bdy wr hu hg1 hr hx]

/-- The statement exercised on the same body served with status 500 and with status 200. -/
theorem Fetch_ignores_status_witness :
    httpResponse 200 (str "<wb:data/>") ≠ httpResponse 500 (str "<wb:data/>") ∧
      ((statusBank 500 (str "<wb:data/>")).Fetch italySyntax (str "it") (newYear 2010)
          (newYear 2012) []).1 =
        ((statusBank 200 (str "<wb:data/>")).Fetch italySyntax (str "it") (newYear 2010)
          (newYear 2012) []).1 ∧
      ((statusBank 500 (str "<wb:data/>")).Fetch italySyntax (str "it") (newYear 2010)
          (newYear 2012) []).1 =
        (some { Provider := str "The World Bank", History := italyEnvelope.Data.map instantOf },
          none) :=
  have h := Fetch_ignores_status italySyntax (statusBank 500 (str "<wb:data/>"))
    (statusBank 200 (str "<wb:data/>")) (str "it") (newYear 2010) (newYear 2012) [] _ [] _
    (italyURL "2010" "2012") (httpResponse 500 (str "<wb:data/>"))
    (httpResponse 200 (str "<wb:data/>")) (by decide) rfl rfl rfl
  ⟨by decide, h.1, h.2 _ italyEnvelope rfl (by decide)⟩

/-- C8, what the code does: for the country `it`, a `from` in 1960 and a `to` in 2018,
`buildURL` succeeds and the string form of its URL, which `Fetch` hands to the transport,
is `http://api.worldbank.org/v2/countries/it/indicators/SP.POP.TOTL?date=1960%3A2018`: the
colon of the `date` parameter is percent-encoded by `Values.Encode`, so the string is not
the one of the comment on `buildURL`, which has `date=1960:2018`. -/
theorem buildURL_italy_string {σ : Type} (w : WorldBank σ) (from_ to_ : Time)
    (hf : from_.Year = 1960) (ht : to_.Year = 2018) :
    (w.buildURL (str "it") from_ to_).map url.URL.String =
        .ok (str "http://api.worldbank.org/v2/countries/it/indicators/SP.POP.TOTL?date=1960%3A2018") ∧
      (w.buildURL (str "it") from_ to_).map url.URL.String ≠
        .ok (str "http://api.worldbank.org/v2/countries/it/indicators/SP.POP.TOTL?date=1960:2018") := by
  rw [buildURL_plain w (str "it") from_ to_ (by decide) (by decide) (by decide), hf, ht]
  decide

/-- The statement exercised on January 1 of both years, with the string the transport is
asked for. -/
theorem buildURL_italy_string_witness :
    ((italyBank.buildURL (str "it") (newYear 1960) (newYear 2018)).map url.URL.String =
        .ok (str "http://api.worldbank.org/v2/countries/it/indicators/SP.POP.TOTL?date=1960%3A2018") ∧
      (italyBank.buildURL (str "it") (newYear 1960) (newYear 2018)).map url.URL.String ≠
        .ok (str "http://api.worldbank.org/v2/countries/it/indicators/SP.POP.TOTL?date=1960:2018")) ∧
      (italyBank.Fetch italySyntax (str "it") (newYear 1960) (newYear 2018) []).2 =
        [str "http://api.worldbank.org/v2/countries/it/indicators/SP.POP.TOTL?date=1960%3A2018"] :=
  ⟨buildURL_italy_string italyBank (newYear 1960) (newYear 2018) rfl rfl, by decide⟩

/-! ## Properties of the decoding -/

theorem matchesField_unique (name : xml.Name) (f g : String)
    (hf : matchesField name f = true) (hg : matchesField name g = true) : str f = str g := by
  simp only [matchesField, Bool.and_eq_true, decide_eq_true_eq] at hf hg
  rw [← hf.2, ← hg.2]

theorem matchesField_ne (name : xml.Name) (f g : String) (hf : matchesField name f = true)
    (hne : str f ≠ str g) : matchesField name g = false := by
  cases h : matchesField name g with
  | false => rfl
  | true => exact absurd (matchesField_unique name f g hf h) hne

theorem copyValueInt_nil : xml.copyValueInt [] = .ok 0 := by
  simp [xml.copyValueInt]

theorem intOf_nil : xml.intOf [] = 0 := by
  simp [xml.intOf, copyValueInt_nil]

theorem copyValueInt_of_readable (t : GoString) (h : xml.intReadable t = true) :
    xml.copyValueInt t = .ok (xml.intOf t) := by
  unfold xml.intReadable at h
  unfold xml.intOf
  split at h
  · rename_i v hv
    rw [hv]
  · cases h

/-- A `<wb:date>` child sets the year. -/
theorem unmarshalDataChild_date (d : Data) (name : xml.Name) (attr : List xml.Attr)
    (children : List xml.Node) (h : matchesField name "date" = true) (v : Int)
    (hr : xml.copyValueInt (xml.charDataOf children) = .ok v) :
    unmarshalDataChild d (.element name attr children) =
      .ok { d with Date := { XMLName := name, Date := v } } := by
  simp [unmarshalDataChild, h, hr, matchesField_ne name "date" "indicator" h (by decide),
    matchesField_ne name "date" "country" h (by decide),
    matchesField_ne name "date" "countryiso3code" h (by decide)]

/-- A `<wb:value>` child sets the value. -/
theorem unmarshalDataChild_value (d : Data) (name : xml.Name) (attr : List xml.Attr)
    (children : List xml.Node) (h : matchesField name "value" = true) (v : Int)
    (hr : xml.copyValueInt (xml.charDataOf children) = .ok v) :
    unmarshalDataChild d (.element name attr children) =
      .ok { d with Value := { XMLName := name, Value := v } } := by
  simp [unmarshalDataChild, h, hr, matchesField_ne name "value" "indicator" h (by decide),
    matchesField_ne name "value" "country" h (by decide),
    matchesField_ne name "value" "countryiso3code" h (by decide),
    matchesField_ne name "value" "date" h (by decide)]

/-- Any other child leaves year and value as they are, and is never an error. -/
theorem unmarshalDataChild_other (d : Data) (name : xml.Name) (attr : List xml.Attr)
    (children : List xml.Node) (hd : matchesField name "date" = false)
    (hv : matchesField name "value" = false) :
    ∃ d', unmarshalDataChild d (.element name attr children) = .ok d' ∧
      d'.Date = d.Date ∧ d'.Value = d.Value := by
  simp only [unmarshalDataChild, hd, hv, Bool.false_eq_true, if_false]
  split_ifs <;> exact ⟨_, rfl, rfl, rfl⟩

/-- The decoding of the children of one `<data>` element: it succeeds as soon as every
non-empty text of a `<wb:date>` or `<wb:value>` child is readable, and year and value are
then the readings of the last such child, or what they were when there is none. -/
theorem unmarshalChildren_data (cs : List xml.Node) (d : Data)
    (hgood : ∀ t ∈ fieldTexts "date" cs ++ fieldTexts "value" cs, t ≠ [] →
      xml.intReadable t = true) :
    ∃ d', unmarshalChildren unmarshalDataChild d cs = .ok d' ∧
      d'.Date.Date = fieldIntFrom d.Date.Date (fieldTexts "date" cs) ∧
      d'.Value.Value = fieldIntFrom d.Value.Value (fieldTexts "value" cs) := by
  have hread : ∀ t, (t ≠ [] → xml.intReadable t = true) → xml.copyValueInt t = .ok (xml.intOf t) := by
    intro t ht
    by_cases h0 : t = []
    · subst h0
      rw [copyValueInt_nil, intOf_nil]
    · exact copyValueInt_of_readable t (ht h0)
  induction cs generalizing d with
  | nil => exact ⟨d, rfl, rfl, rfl⟩
  | cons n ns ih =>
    cases n with
    | charData data =>
      simp only [fieldTexts] at hgood
      obtain ⟨d', h1, h2, h3⟩ := ih d hgood
      exact ⟨d', by simp [unmarshalChildren, unmarshalDataChild, h1], h2, h3⟩
    | ignored data =>
      simp only [fieldTexts] at hgood
      obtain ⟨d', h1, h2, h3⟩ := ih d hgood
      exact ⟨d', by simp [unmarshalChildren, unmarshalDataChild, h1], h2, h3⟩
    | element name attr children =>
      by_cases hd : matchesField name "date" = true
      · have hv : matchesField name "value" = false := matchesField_ne name _ _ hd (by decide)
        simp only [fieldTexts, hd, hv, if_true] at hgood ⊢
        have hr := hread (xml.charDataOf children) (hgood _ (by simp))
        obtain ⟨d', h1, h2, h3⟩ := ih
          { d with Date := { XMLName := name, Date := xml.intOf (xml.charDataOf children) } }
          (fun t ht => hgood t (by
            rcases List.mem_append.1 ht with ht | ht
            · exact List.mem_append_left _ (List.mem_cons_of_mem _ ht)
            · exact List.mem_append_right _ ht))
        refine ⟨d', ?_, ?_, ?_⟩
        · rw [unmarshalChildren, unmarshalDataChild_date d name attr children hd _ hr]
          exact h1
        · rw [h2]
          simp [fieldIntFrom]
        · rw [h3]
          simp
      · rw [Bool.not_eq_true] at hd
        by_cases hv : matchesField name "value" = true
        · simp only [fieldTexts, hd, hv, if_true] at hgood ⊢
          have hr := hread (xml.charDataOf children) (hgood _ (by simp))
          obtain ⟨d', h1, h2, h3⟩ := ih
            { d with Value := { XMLName := name, Value := xml.intOf (xml.charDataOf children) } }
            (fun t ht => hgood t (by
              rcases List.mem_append.1 ht with ht | ht
              · exact List.mem_append_left _ ht
              · exact List.mem_append_right _ (List.mem_cons_of_mem _ ht)))
          refine ⟨d', ?_, ?_, ?_⟩
          · rw [unmarshalChildren, unmarshalDataChild_value d name attr children hv _ hr]
            exact h1
          · rw [h2]
            simp
          · rw [h3]
            simp [fieldIntFrom]
        · rw [Bool.not_eq_true] at hv
          simp only [fieldTexts, hd, hv] at hgood ⊢
          obtain ⟨d1, e1, e2, e3⟩ := unmarshalDataChild_other d name attr children hd hv
          obtain ⟨d', h1, h2, h3⟩ := ih d1 hgood
          refine ⟨d', ?_, ?_, ?_⟩
          · rw [unmarshalChildren, e1]
            exact h1
          · rw [h2, e2]
            simp
          · rw [h3, e3]
            simp

/-- The decoding of the children of the first element: one entry per `<data>` element, in
document order, each read from its own element alone. -/
theorem unmarshalChildren_root (ns : List xml.Node) (wr : WorldBankResponse)
    (hgood : ∀ cs ∈ dataEntries ns, ∀ t ∈ fieldTexts "date" cs ++ fieldTexts "value" cs,
      t ≠ [] → xml.intReadable t = true) :
    ∃ wr', unmarshalChildren unmarshalRootChild wr ns = .ok wr' ∧
      wr'.Data.map instantOf = wr.Data.map instantOf ++ (dataEntries ns).map entryInstant := by
  induction ns generalizing wr with
  | nil => exact ⟨wr, rfl, by simp [dataEntries]⟩
  | cons n ns ih =>
    cases n with
    | charData data =>
      simp only [dataEntries] at hgood ⊢
      obtain ⟨wr', h1, h2⟩ := ih wr hgood
      exact ⟨wr', by simp [unmarshalChildren, unmarshalRootChild, h1], h2⟩
    | ignored data =>
      simp only [dataEntries] at hgood ⊢
      obtain ⟨wr', h1, h2⟩ := ih wr hgood
      exact ⟨wr', by simp [unmarshalChildren, unmarshalRootChild, h1], h2⟩
    | element name attr children =>
      by_cases hm : matchesField name "data" = true
      · simp only [dataEntries, hm, if_true] at hgood ⊢
        obtain ⟨d, hd1, hd2, hd3⟩ := unmarshalChildren_data children {} (hgood children (by simp))
        obtain ⟨wr', h1, h2⟩ := ih { wr with Data := wr.Data ++ [d] }
          (fun cs hcs => hgood cs (List.mem_cons_of_mem _ hcs))
        refine ⟨wr', ?_, ?_⟩
        · rw [unmarshalChildren]
          simp only [unmarshalRootChild, hm, if_true, unmarshalData, hd1]
          exact h1
        · rw [h2]
          have : instantOf d = entryInstant children := by
            simp only [instantOf, entryInstant, fieldInt, hd2, hd3]
          simp [this]
      · rw [Bool.not_eq_true] at hm
        simp only [dataEntries, hm] at hgood ⊢
        obtain ⟨wr', h1, h2⟩ := ih wr hgood
        refine ⟨wr', ?_, h2⟩
        rw [unmarshalChildren]
        simp only [unmarshalRootChild, hm]
        exact h1

theorem fieldInt_of_empty (field : String) (cs : List xml.Node)
    (h : ∀ t ∈ fieldTexts field cs, t = []) : fieldInt field cs = 0 := by
  unfold fieldInt fieldIntFrom
  generalize fieldTexts field cs = ts at h
  induction ts using List.reverseRecOn with
  | nil => rfl
  | append_singleton ts t _ =>
    rw [List.foldl_append]
    have : t = [] := h t (by simp)
    subst this
    simp [intOf_nil]

/-- C9: in a well-formed document, a `<data>` entry whose `<wb:date>` or `<wb:value>`
element is absent, or present but empty, does not make the decode fail (the decode succeeds
as soon as the non-empty year and value texts are readable numbers); the missing field is
the integer 0, and `Fetch` returns exactly one Observation per entry, in order, each read
from its own entry alone: Value 0 when the value is missing, Date December 31 of year 0 at
00:00:00 UTC when the year is missing. -/
theorem Fetch_missing_year_or_value {σ : Type} (x : xml.Syntax) (w : WorldBank σ)
    (country : GoString) (from_ to_ : Time) (s s1 : σ) (u : url.URL) (resp : http.Response)
    (bdy : GoString) (doc : xml.Element)
    (hu : w.buildURL country from_ to_ = .ok u)
    (hg : w.HTTPClient.Get u.String s = (.ok resp, s1))
    (hr : ioutil.ReadAll resp.Body = (bdy, none))
    (hx : x bdy = .ok doc)
    (hgood : ∀ cs ∈ dataEntries doc.children,
      ∀ t ∈ fieldTexts "date" cs ++ fieldTexts "value" cs, t ≠ [] → xml.intReadable t = true) :
    ∃ r : Response, (w.Fetch x country from_ to_ s).1 = (some r, none) ∧
      r.History.length = (dataEntries doc.children).length ∧
      r.History = (dataEntries doc.children).map entryInstant ∧
      ∀ i (h : i < (dataEntries doc.children).length), ∃ obs : Instant,
        r.History[i]? = some obs ∧
        obs = entryInstant ((dataEntries doc.children).get ⟨i, h⟩) ∧
        ((∀ t ∈ fieldTexts "value" ((dataEntries doc.children).get ⟨i, h⟩), t = []) →
          obs.Value = 0) ∧
        ((∀ t ∈ fieldTexts "date" ((dataEntries doc.children).get ⟨i, h⟩), t = []) →
          obs.Date = { year := 0, month := 12, day := 31, hour := 0, min := 0, sec := 0,
                       nsec := 0, loc := Location.UTC }) := by
  obtain ⟨wr, h1, h2⟩ := unmarshalChildren_root doc.children
    { AttrXmlnswb := xml.assignAttrNS (str "xmlns") (str "wb") [] doc.attr,
      Attrpage := xml.assignAttr (str "page") [] doc.attr,
      Attrpages := xml.assignAttr (str "pages") [] doc.attr,
      AttrPerPage := xml.assignAttr (str "per_page") [] doc.attr,
      Attrtotal := xml.assignAttr (str "total") [] doc.attr,
      Attrlastupdated := xml.assignAttr (str "lastupdated") [] doc.attr } hgood
  have hdec : xml.Unmarshal x bdy = .ok wr := by
    simp only [xml.Unmarshal, hx, unmarshalRoot]
    exact h1
  simp only [List.map_nil, List.nil_append] at h2
  refine ⟨_, by rw [Fetch_ok x w country from_ to_ s s1 u resp bdy wr hu hg hr hdec], ?_, h2, ?_⟩
  · simp only [h2, List.length_map]
  · intro i h
    refine ⟨entryInstant ((dataEntries doc.children).get ⟨i, h⟩), ?_, rfl, ?_, ?_⟩
    · simp only [h2, List.getElem?_map, List.getElem?_eq_getElem h, List.get_eq_getElem,
        Option.map_some']
    · intro h0
      simp only [entryInstant]
      exact fieldInt_of_empty _ _ h0
    · intro h0
      simp only [entryInstant, fieldInt_of_empty _ _ h0]
      decide

/-- The statement exercised on a document whose entries lack the value, have an empty
year, lack both, and have both. -/
theorem Fetch_missing_year_or_value_witness :
    ∃ r : Response, (italyBank.Fetch (fun _ => .ok gappyDoc) (str "it") (newYear 2010)
        (newYear 2019) []).1 = (some r, none) ∧
      r.History =
        [⟨⟨2019, 12, 31, 0, 0, 0, 0, Location.UTC⟩, 0⟩,
         ⟨⟨0, 12, 31, 0, 0, 0, 0, Location.UTC⟩, 60000000⟩,
         ⟨⟨0, 12, 31, 0, 0, 0, 0, Location.UTC⟩, 0⟩,
         ⟨⟨2012, 12, 31, 0, 0, 0, 0, Location.UTC⟩, 59539717⟩] := by
  obtain ⟨r, h1, -, h3, -⟩ := Fetch_missing_year_or_value (fun _ => .ok gappyDoc) italyBank
    (str "it") (newYear 2010) (newYear 2019) [] _ (italyURL "2010" "2019")
    (httpResponse 200 (str "<wb:data/>")) _ gappyDoc (by decide) rfl rfl rfl (by decide)
  exact ⟨r, h1, h3.trans (by decide)⟩

end population
